import Mathlib

/-!
Verification of the iperf3 ASCII plotting tool (`plotter-ascii.py`).

The development shallow-embeds the tool's data model and its core
operations:

* the metric extractor `extract_performance_metrics`,
* the ASCII post-processor `_post_process_ascii_output`, split—as in the
  source—into its successive passes (bounding-box detection, glyph
  substitution / decoration stripping, border reconstruction, vertical
  axis-title overlay, below-chart metadata),
* the orchestrator `generate_ascii_graphs` together with the input loader
  `_load_json_data` and the subprocess wrapper `_execute_gnuplot`.

Strings are modelled as `List Char` (Python `str`), the character grid as
`List (List Char)` (the result of `raw_output.split('\n')`), Python numbers
as `Rat`, and Python `dict.get` of an optional field as `Option`.  List
indexing that Python guards dynamically is modelled with `Option`-valued
access (`pyIdx?` / `pySet?`), so that an out-of-range access—which would
raise `IndexError` in Python—is observable as `none`.
-/

namespace Iperf

/-! ## Basic Python string helpers -/

/-- Python's `\s` / `str.strip` whitespace set (ASCII part). -/
def isPySpace (c : Char) : Bool :=
  c = ' ' ∨ c = '\t' ∨ c = '\n' ∨ c = '\x0b' ∨ c = '\x0c' ∨ c = '\r'

/-- `s.strip()`: drop whitespace from both ends. -/
def pyStrip (l : List Char) : List Char :=
  (((l.dropWhile isPySpace).reverse.dropWhile isPySpace)).reverse

/-- Python list/string indexing guarded to non-negative indices; the
negative-index form never occurs on the executed paths of the tool. -/
def pyIdx? {α : Type} (l : List α) (i : Int) : Option α :=
  if 0 ≤ i then l.get? i.toNat else none

/-- Python item assignment `l[i] = a`; `none` models `IndexError`. -/
def pySet? {α : Type} (l : List α) (i : Int) (a : α) : Option (List α) :=
  if 0 ≤ i ∧ i.toNat < l.length then some (l.set i.toNat a) else none

/-- Python `range(a, b)` over integers. -/
def intRange (a b : Int) : List Int :=
  (List.range (b - a).toNat).map (fun (k : Nat) => a + (k : Int))

/-- Python `s.find(c)`: index of the first occurrence, `-1` if absent. -/
def strFind (l : List Char) (c : Char) : Int :=
  if c ∈ l then ((l.indexOf c : Nat) : Int) else -1

/-- Python `s.rfind(c)`: index of the last occurrence, `-1` if absent. -/
def strRfind (l : List Char) (c : Char) : Int :=
  if c ∈ l then ((l.length - 1 - l.reverse.indexOf c : Nat) : Int) else -1

/-! ## Data model (spec §3, source `extract_performance_metrics`) -/

/-- One entry of an interval's `streams` array.  The direction flag is
tri-state: `sender=true`, `receiver=false`, unknown=absent (spec §3). -/
structure StreamSample where
  sender : Option Bool
  end_time : Rat
  bytes : Rat
  lost_percent : Option Rat
  jitter_ms : Option Rat
deriving DecidableEq, Repr

/-- One reporting interval. -/
structure Interval where
  streams : List StreamSample
deriving DecidableEq, Repr

/-- The validated measurement record (after `_load_json_data`). -/
structure MeasurementRecord where
  intervals : List Interval
deriving DecidableEq, Repr

/-- A raw input record; `intervals = none` models a JSON document without
the top-level `intervals` key. -/
structure RawRecord where
  intervals : Option (List Interval)
deriving DecidableEq, Repr

/-- The six series produced by `extract_performance_metrics`. -/
structure Metrics where
  sender_times : List Rat
  sender_bytes : List Rat
  receiver_times : List Rat
  receiver_bytes : List Rat
  packet_loss : List Rat
  jitter : List Rat
deriving DecidableEq, Repr

/-- One step of the extraction loop body: `if stream.get("sender"): ...
elif stream.get("sender") is False: ...` (source lines 182-189).
`s.sender.getD false` is Python truthiness of `stream.get("sender")`
for a boolean-or-absent flag. -/
def extractStream (acc : Metrics) (s : StreamSample) : Metrics :=
  if s.sender.getD false then
    { acc with
      sender_times := acc.sender_times ++ [s.end_time]
      sender_bytes := acc.sender_bytes ++ [s.bytes] }
  else if s.sender = some false then
    { acc with
      receiver_times := acc.receiver_times ++ [s.end_time]
      receiver_bytes := acc.receiver_bytes ++ [s.bytes]
      packet_loss := acc.packet_loss ++ [s.lost_percent.getD 0]
      jitter := acc.jitter ++ [s.jitter_ms.getD 0] }
  else
    acc

/-- `extract_performance_metrics` (source lines 177-191): the nested
`for interval ... for stream ...` loop over the record. -/
def extract_performance_metrics (d : MeasurementRecord) : Metrics :=
  d.intervals.foldl (fun acc iv => iv.streams.foldl extractStream acc)
    ⟨[], [], [], [], [], []⟩

/-- All stream samples of a record in traversal order. -/
def allStreams (d : MeasurementRecord) : List StreamSample :=
  d.intervals.flatMap Interval.streams

/-- Streams taken by the sender branch of the extraction loop. -/
def senderP (s : StreamSample) : Bool := s.sender.getD false

/-- Streams taken by the receiver branch of the extraction loop. -/
def receiverP (s : StreamSample) : Bool :=
  !(s.sender.getD false) && decide (s.sender = some false)

/-- The receiver-direction samples of a record, in order. -/
def receiverStreams (d : MeasurementRecord) : List StreamSample :=
  (allStreams d).filter receiverP

/-! Characterization of the extraction fold. -/

/-- Guarded-projection form of one extraction step. -/
lemma extractStream_eq (acc : Metrics) (s : StreamSample) :
    extractStream acc s =
      ⟨acc.sender_times ++ (if senderP s then [s.end_time] else []),
       acc.sender_bytes ++ (if senderP s then [s.bytes] else []),
       acc.receiver_times ++ (if receiverP s then [s.end_time] else []),
       acc.receiver_bytes ++ (if receiverP s then [s.bytes] else []),
       acc.packet_loss ++ (if receiverP s then [s.lost_percent.getD 0] else []),
       acc.jitter ++ (if receiverP s then [s.jitter_ms.getD 0] else [])⟩ := by
  rcases s with ⟨so, et, by_, lp, jm⟩
  rcases so with _ | b
  · simp [extractStream, senderP, receiverP]
  · cases b <;> simp [extractStream, senderP, receiverP]

/-- Per-sample contribution to a series: `g` projects the value, `p`
selects the branch. -/
def seriesOf (p : StreamSample → Bool) (g : StreamSample → Rat)
    (ss : List StreamSample) : List Rat :=
  ss.filterMap (fun s => if p s then some (g s) else none)

lemma seriesOf_nil (p g) : seriesOf p g [] = [] := rfl

lemma seriesOf_cons (p g s ss) :
    seriesOf p g (s :: ss) =
      (if p s then [g s] else []) ++ seriesOf p g ss := by
  by_cases h : p s <;> simp [seriesOf, List.filterMap_cons, h]

lemma seriesOf_append (p g ss ts) :
    seriesOf p g (ss ++ ts) = seriesOf p g ss ++ seriesOf p g ts := by
  simp [seriesOf, List.filterMap_append]

lemma length_seriesOf (p g ss) : (seriesOf p g ss).length = ss.countP p := by
  induction ss with
  | nil => rfl
  | cons s ss ih =>
    rw [seriesOf_cons, List.countP_cons]
    by_cases h : p s <;> simp [h, ih]

/-- The stream-level fold, fully characterized component by component. -/
lemma foldl_extractStream_char (ss : List StreamSample) (acc : Metrics) :
    ss.foldl extractStream acc =
      ⟨acc.sender_times ++ seriesOf senderP (·.end_time) ss,
       acc.sender_bytes ++ seriesOf senderP (·.bytes) ss,
       acc.receiver_times ++ seriesOf receiverP (·.end_time) ss,
       acc.receiver_bytes ++ seriesOf receiverP (·.bytes) ss,
       acc.packet_loss ++ seriesOf receiverP (fun s => s.lost_percent.getD 0) ss,
       acc.jitter ++ seriesOf receiverP (fun s => s.jitter_ms.getD 0) ss⟩ := by
  induction ss generalizing acc with
  | nil => simp [seriesOf]
  | cons s ss ih =>
    rw [List.foldl_cons, ih, extractStream_eq]
    simp [seriesOf_cons, List.append_assoc]

/-- The interval-level fold, characterized over the flattened streams. -/
lemma extract_char (d : MeasurementRecord) :
    extract_performance_metrics d =
      ⟨seriesOf senderP (·.end_time) (allStreams d),
       seriesOf senderP (·.bytes) (allStreams d),
       seriesOf receiverP (·.end_time) (allStreams d),
       seriesOf receiverP (·.bytes) (allStreams d),
       seriesOf receiverP (fun s => s.lost_percent.getD 0) (allStreams d),
       seriesOf receiverP (fun s => s.jitter_ms.getD 0) (allStreams d)⟩ := by
  rcases d with ⟨ivs⟩
  show ivs.foldl _ _ = _
  have main : ∀ (ivs : List Interval) (acc : Metrics),
      ivs.foldl (fun acc iv => iv.streams.foldl extractStream acc) acc =
        ⟨acc.sender_times ++ seriesOf senderP (·.end_time) (ivs.flatMap Interval.streams),
         acc.sender_bytes ++ seriesOf senderP (·.bytes) (ivs.flatMap Interval.streams),
         acc.receiver_times ++ seriesOf receiverP (·.end_time) (ivs.flatMap Interval.streams),
         acc.receiver_bytes ++ seriesOf receiverP (·.bytes) (ivs.flatMap Interval.streams),
         acc.packet_loss ++ seriesOf receiverP (fun s => s.lost_percent.getD 0) (ivs.flatMap Interval.streams),
         acc.jitter ++ seriesOf receiverP (fun s => s.jitter_ms.getD 0) (ivs.flatMap Interval.streams)⟩ := by
    intro ivs
    induction ivs with
    | nil => intro acc; simp [seriesOf]
    | cons iv ivs ih =>
      intro acc
      rw [List.foldl_cons, foldl_extractStream_char, ih]
      simp [List.flatMap_cons, seriesOf_append, List.append_assoc]
  have := main ivs ⟨[], [], [], [], [], []⟩
  simpa [allStreams] using this

lemma seriesOf_eq_map_filter (p g ss) :
    seriesOf p g ss = (ss.filter p).map g := by
  induction ss with
  | nil => rfl
  | cons s ss ih =>
    rw [seriesOf_cons, List.filter_cons]
    by_cases h : p s <;> simp [h, ih]

lemma senderP_eq (s : StreamSample) :
    senderP s = decide (s.sender = some true) := by
  rcases s with ⟨so, _, _, _, _⟩
  rcases so with _ | b
  · rfl
  · cases b <;> rfl

lemma receiverP_eq (s : StreamSample) :
    receiverP s = decide (s.sender = some false) := by
  rcases s with ⟨so, _, _, _, _⟩
  rcases so with _ | b
  · rfl
  · cases b <;> rfl

/-- **C2.** For every `MeasurementRecord` whose direction flags are each a
boolean or absent, the sender series lengths equal the number of stream
samples whose direction flag is `true`, and the receiver, loss and jitter
series lengths each equal the number of stream samples whose direction
flag is `false`; samples with an absent flag contribute to no series. -/
theorem extract_series_lengths (d : MeasurementRecord) :
    (extract_performance_metrics d).sender_times.length
        = ((allStreams d).filter (fun s => s.sender = some true)).length
    ∧ (extract_performance_metrics d).sender_bytes.length
        = ((allStreams d).filter (fun s => s.sender = some true)).length
    ∧ (extract_performance_metrics d).receiver_times.length
        = ((allStreams d).filter (fun s => s.sender = some false)).length
    ∧ (extract_performance_metrics d).receiver_bytes.length
        = ((allStreams d).filter (fun s => s.sender = some false)).length
    ∧ (extract_performance_metrics d).packet_loss.length
        = ((allStreams d).filter (fun s => s.sender = some false)).length
    ∧ (extract_performance_metrics d).jitter.length
        = ((allStreams d).filter (fun s => s.sender = some false)).length := by
  have hsend : (fun s : StreamSample => senderP s)
      = (fun s : StreamSample => decide (s.sender = some true)) :=
    funext senderP_eq
  have hrecv : (fun s : StreamSample => receiverP s)
      = (fun s : StreamSample => decide (s.sender = some false)) :=
    funext receiverP_eq
  rw [extract_char]
  refine ⟨?_, ?_, ?_, ?_, ?_, ?_⟩ <;>
    simp [seriesOf_eq_map_filter, hsend, hrecv]

/-- **C9.** Every receiver-direction stream sample with a missing
`lost_percent` contributes `0` to the loss series, and one with a missing
`jitter_ms` contributes `0` to the jitter series; the loss and jitter
series stay aligned (same length) with the receiver time axis, and the
extraction is a total function—no error path exists for a missing
optional field. -/
theorem receiver_missing_fields_zero (d : MeasurementRecord) (i : Nat)
    (s : StreamSample) (hs : (receiverStreams d).get? i = some s) :
    (extract_performance_metrics d).packet_loss.get? i
        = some (s.lost_percent.getD 0)
    ∧ (s.lost_percent = none →
        (extract_performance_metrics d).packet_loss.get? i = some 0)
    ∧ (extract_performance_metrics d).jitter.get? i
        = some (s.jitter_ms.getD 0)
    ∧ (s.jitter_ms = none →
        (extract_performance_metrics d).jitter.get? i = some 0)
    ∧ (extract_performance_metrics d).packet_loss.length
        = (extract_performance_metrics d).receiver_times.length
    ∧ (extract_performance_metrics d).jitter.length
        = (extract_performance_metrics d).receiver_times.length := by
  rw [extract_char]
  have hloss : (seriesOf receiverP (fun s => s.lost_percent.getD 0)
      (allStreams d)).get? i = some (s.lost_percent.getD 0) := by
    rw [seriesOf_eq_map_filter, List.get?_map]
    rw [receiverStreams] at hs
    rw [hs]
    rfl
  have hjit : (seriesOf receiverP (fun s => s.jitter_ms.getD 0)
      (allStreams d)).get? i = some (s.jitter_ms.getD 0) := by
    rw [seriesOf_eq_map_filter, List.get?_map]
    rw [receiverStreams] at hs
    rw [hs]
    rfl
  refine ⟨hloss, ?_, hjit, ?_, ?_, ?_⟩
  · intro h; rw [hloss, h]; rfl
  · intro h; rw [hjit, h]; rfl
  · simp [length_seriesOf]
  · simp [length_seriesOf]

/-- Witness for C9 at a concrete record: one receiver sample missing both
optional fields contributes `0` to both quality series. -/
theorem receiver_missing_fields_zero_witness :
    (extract_performance_metrics
        ⟨[⟨[⟨some false, 1, 900, none, none⟩]⟩]⟩).packet_loss.get? 0 = some 0
    ∧ (extract_performance_metrics
        ⟨[⟨[⟨some false, 1, 900, none, none⟩]⟩]⟩).jitter.get? 0 = some 0 := by
  have h := receiver_missing_fields_zero
      ⟨[⟨[⟨some false, 1, 900, none, none⟩]⟩]⟩ 0
      ⟨some false, 1, 900, none, none⟩ (by decide)
  exact ⟨h.2.1 rfl, h.2.2.2.1 rfl⟩

/-! ## Configuration (`ConfigManager` defaults, spec §6) -/

/-- The configuration keys read by the ASCII pipeline. -/
structure Config where
  plot_char_primary : Char
  plot_char_secondary : Char
  plot_char_points : Char
  plot_style : List Char
  show_ylabel_inline : Bool
  ylabel_position : List Char
  ylabel_rotation : List Char
  compact_ylabel : Bool
  show_axis_info_below : Bool
  verbose_output : Bool
  track_sender_bytes : Bool
  track_receiver_bytes : Bool
  track_packet_loss : Bool
  track_jitter : Bool
deriving DecidableEq, Repr

/-- The built-in defaults of `ConfigManager._set_defaults`. -/
def cfgDefault : Config where
  plot_char_primary := '*'
  plot_char_secondary := 'A'
  plot_char_points := '+'
  plot_style := "linespoints".toList
  show_ylabel_inline := true
  ylabel_position := "left".toList
  ylabel_rotation := "vertical".toList
  compact_ylabel := true
  show_axis_info_below := false
  verbose_output := true
  track_sender_bytes := true
  track_receiver_bytes := true
  track_packet_loss := true
  track_jitter := true

/-! ## ASCII post-processor: `_post_process_ascii_output`
(source lines 315-495), split into its passes. -/

/-- Pass 1 + the tick-row scan share this first/last-qualifying-index loop
shape (`for i, line in enumerate(lines): if P(line): first, last := ...`),
with `-1` as the not-found sentinel exactly as in the source. -/
def firstLastAux (p : List Char → Bool) (i : Nat) (a b : Int) :
    List (List Char) → Int × Int
  | [] => (a, b)
  | line :: rest =>
    if p line then
      firstLastAux p (i + 1) (if a = -1 then (i : Int) else a) (i : Int) rest
    else
      firstLastAux p (i + 1) a b rest

/-- First and last index of a row satisfying `p`, `-1` if none. -/
def firstLast (p : List Char → Bool) (lines : List (List Char)) : Int × Int :=
  firstLastAux p 0 (-1) (-1) lines

/-- A row that counts as part of the plot box: contains a vertical border
and is longer than the stray-line threshold (source lines 340-345). -/
def boxRowP (line : List Char) : Bool :=
  '|' ∈ line ∧ 50 < line.length

/-- Pass 1, bounding-box detection: `graph_start`/`graph_end`. -/
def graphBounds (lines : List (List Char)) : Int × Int :=
  firstLast boxRowP lines

/-- The protected phrases of the substitution pass (source line 350). -/
def protectedPhrases : List (List Char) :=
  ["Network".toList, "Measurement Data".toList, "X Axis:".toList,
   "Y Axis:".toList]

/-- `any(phrase in line for phrase in [...])`. -/
def isProtected (line : List Char) : Bool :=
  protectedPhrases.any (fun p => decide ( p <:+: line))

/-- The glyph-substitution half of pass 2 (source lines 353-359): replace
`*` by the primary glyph, then every `A` by the secondary glyph. -/
def glyphSub (cfg : Config) (line : List Char) : List Char :=
  let line :=
    if '*' ∈ line ∧ cfg.plot_char_primary ≠ '*' then
      line.map (fun c => if c = '*' then cfg.plot_char_primary else c)
    else line
  if 'A' ∈ line ∧ cfg.plot_char_secondary ≠ 'A' then
    line.map (fun c => if c = 'A' then cfg.plot_char_secondary else c)
  else line

/-- The decoration-stripping half of pass 2 (source lines 361-366):
dashes and underscores become blanks, then `+` marks become blanks. -/
def stripDecor (line : List Char) : List Char :=
  let line := line.map (fun c => if c = '-' then ' ' else c)
  let line := line.map (fun c => if c = '_' then ' ' else c)
  if '+' ∈ line then line.map (fun c => if c = '+' then ' ' else c) else line

/-- Pass 2 on one row: protected rows are skipped (`continue`), all other
rows get glyph substitution followed by decoration stripping. -/
def substLine (cfg : Config) (line : List Char) : List Char :=
  if isProtected line then line else stripDecor (glyphSub cfg line)

/-- The `typical_pipe_start`/`typical_pipe_end` loop of pass 3 (source
lines 373-384): walk `range(graph_start, graph_end + 1)`, stop at the
first row containing `|` and take `find`/`rfind` of `|` there.  `none`
models an `IndexError` on `lines[i]`. -/
def scanTypical (lines : List (List Char)) : List Int → Option (Int × Int)
  | [] => some (-1, -1)
  | i :: rest => do
    let line ← pyIdx? lines i
    if '|' ∈ line then
      pure (strFind line '|', strRfind line '|')
    else
      scanTypical lines rest

/-- The character class of the leading-numeric-run pattern
`^\s*([0-9.e+\-\s]+)`. -/
def numClass (c : Char) : Bool :=
  c.isDigit ∨ c = '.' ∨ c = 'e' ∨ c = '+' ∨ c = '-' ∨ isPySpace c

/-- `re.search(r'^\s*([0-9.e+\-\s]+)', line)` (source lines 428, 446):
with backtracking, the group is the maximal class run after the leading
whitespace when one starts there, a single space when the anchor can
back off into a non-empty whitespace prefix, and no match otherwise. -/
def leadNumMatch (line : List Char) : Option (List Char) :=
  let ws := line.takeWhile isPySpace
  let rest := line.dropWhile isPySpace
  match rest with
  | c :: _ =>
    if numClass c then some (rest.takeWhile numClass)
    else if 0 < ws.length then some [' '] else none
  | [] => if 0 < ws.length then some [' '] else none

/-- The x-axis-scale pattern `re.match(r'^\s*\d+\s+\d+\s+\d+', ...)`
(source line 417), as its equivalent maximal-run parse. -/
def isXScale (ls : List Char) : Bool :=
  let r0 := ls.dropWhile isPySpace
  let d1 := r0.takeWhile Char.isDigit
  let r1 := r0.dropWhile Char.isDigit
  let s1 := r1.takeWhile isPySpace
  let r2 := r1.dropWhile isPySpace
  let d2 := r2.takeWhile Char.isDigit
  let r3 := r2.dropWhile Char.isDigit
  let s2 := r3.takeWhile isPySpace
  let r4 := r3.dropWhile isPySpace
  let d3 := r4.takeWhile Char.isDigit
  0 < d1.length ∧ 0 < s1.length ∧ 0 < d2.length ∧ 0 < s2.length
    ∧ 0 < d3.length

/-- The y-axis tick-row test of pass 3 (source lines 397-420). -/
def isYLine (line : List Char) : Bool :=
  let ls := pyStrip line
  if ls = [] then false
  else if (ls.getD 0 ' ').isDigit
      ∨ (1 < ls.length ∧ ls.getD 0 ' ' = '0' ∧ ls.getD 1 ' ' = '.')
      ∨ (ls.getD 0 ' ' ∈ ['1', '2', '3', '4', '5', '6', '7', '8', '9']) then
    if "e ".toList <:+: ls ∨ "e+".toList <:+: ls ∨ "e-".toList <:+: ls then
      true
    else if ls.count ' ' ≤ 2 ∧ (ls.take 15).any Char.isDigit then
      ! isXScale ls
    else false
  else false

/-- The replacement border row (source lines 433-439 and 451-457):
right-align the tick label one column before the left border when the
padding budget allows, otherwise place it adjacent to the border. -/
def mkBorderLine (tps border_length : Int) (y_value : List Char) :
    List Char :=
  let padding_needed : Int := (tps - 1) - (y_value.length : Int)
  if 0 < padding_needed then
    List.replicate padding_needed.toNat ' ' ++ y_value
      ++ ' ' :: '+' :: List.replicate border_length.toNat '-' ++ ['+']
  else
    y_value ++ ' ' :: '+' :: List.replicate border_length.toNat '-' ++ ['+']

/-- Rewrite one tick row into a border row (source lines 425-440, 443-458):
guarded by `first_y_line < len(lines)`, read the row, extract the leading
numeric run, and replace the row. -/
def rewriteTick (lines : List (List Char)) (r tps border_length : Int) :
    Option (List (List Char)) :=
  if r < (lines.length : Int) then do
    let line ← pyIdx? lines r
    match leadNumMatch line with
    | some g => pySet? lines r (mkBorderLine tps border_length (pyStrip g))
    | none => pure lines
  else
    pure lines

/-- Pass 3, border reconstruction (source lines 371-458), taking the
bounding box detected on the raw grid. -/
def borderBlock (gs ge : Int) (lines : List (List Char)) :
    Option (List (List Char)) :=
  if gs ≠ -1 ∧ ge ≠ -1 then do
    let tp ← scanTypical lines (intRange gs (ge + 1))
    let border_length : Int :=
      if tp.1 ≠ -1 ∧ tp.2 ≠ -1 then tp.2 - tp.1 - 1 else 60
    let fl := firstLast isYLine lines
    if fl.1 ≠ -1 ∧ fl.2 ≠ -1 ∧ tp.1 ≠ -1 then do
      let lines ← rewriteTick lines fl.1 tp.1 border_length
      let lines ← rewriteTick lines fl.2 tp.1 border_length
      pure lines
    else
      pure lines
  else
    pure lines

/-- `middle_start` of pass 4 (source lines 470-471), a function of the
label length; Python `//` is floor division. -/
def middleStart (gs ge : Int) (n : Nat) : Int :=
  gs + (ge - gs).fdiv 2 - ((n / 2 : Nat) : Int)

/-- The per-character overlay loop of pass 4 (source lines 473-477): write
`char + ' ' + line` at row `middle_start + i` when that index is in
bounds, exactly as guarded in the source. -/
def overlayCharsAux (ms : Int) : Nat → List Char → List (List Char) →
    List (List Char)
  | _, [], ls => ls
  | i, c :: cs, ls =>
    let idx := ms + (i : Int)
    let ls :=
      if 0 ≤ idx ∧ idx < (ls.length : Int) then
        ls.set idx.toNat (c :: ' ' :: ls.getD idx.toNat [])
      else ls
    overlayCharsAux ms (i + 1) cs ls

/-- The alignment loop of pass 4 (source lines 480-482): rows inside the
box that received no label character are left-padded with two blanks. -/
def alignRows (gs ge ms : Int) (n : Nat) : Nat → List (List Char) →
    List (List Char)
  | _, [] => []
  | i, l :: rest =>
    (if gs ≤ (i : Int) ∧ (i : Int) ≤ ge
        ∧ ¬(ms ≤ (i : Int) ∧ (i : Int) < ms + (n : Int)) then
      ' ' :: ' ' :: l
    else l) :: alignRows gs ge ms n (i + 1) rest

/-- Pass 4, vertical axis-title overlay (source lines 461-482). -/
def overlayBlock (cfg : Config) (gs ge : Int) (y_label : List Char)
    (lines : List (List Char)) : List (List Char) :=
  if cfg.show_ylabel_inline then
    if cfg.ylabel_rotation = "vertical".toList
        ∧ cfg.ylabel_position = "left".toList then
      let y_chars := y_label.map (fun c => if c = ' ' then '_' else c)
      let ms := middleStart gs ge y_chars.length
      let lines := overlayCharsAux ms 0 y_chars lines
      alignRows gs ge ms y_chars.length 0 lines
    else lines
  else lines

/-- The trailing-blank-row pop loop of pass 5 (source lines 487-488),
written as its equivalent drop on the reversed row list. -/
def dropTrailingBlank (lines : List (List Char)) : List (List Char) :=
  (lines.reverse.dropWhile (fun l => decide (pyStrip l = []))).reverse

/-- Pass 5, below-chart metadata (source lines 485-493). -/
def metaBlock (cfg : Config) (y_label x_label : List Char)
    (lines : List (List Char)) : List (List Char) :=
  if cfg.show_axis_info_below then
    dropTrailingBlank lines
      ++ [[], "X Axis: ".toList ++ x_label, "Y Axis: ".toList ++ y_label]
  else lines

/-- `_post_process_ascii_output` on the row list, passes in source order:
bounding-box detection on the raw rows, glyph substitution / stripping,
border reconstruction, vertical label overlay, below-chart metadata. -/
def post_process_lines (cfg : Config) (y_label x_label : List Char)
    (lines : List (List Char)) : Option (List (List Char)) := do
  let gb := graphBounds lines
  let lines := lines.map (substLine cfg)
  let lines ← borderBlock gb.1 gb.2 lines
  let lines := overlayBlock cfg gb.1 gb.2 y_label lines
  pure (metaBlock cfg y_label x_label lines)

/-- `_post_process_ascii_output` (source lines 315-495) on the raw output
string: split on newlines, run the passes, join with newlines.  `none`
models an uncaught exception. -/
def post_process_ascii_output (cfg : Config)
    (raw_output y_label x_label : List Char) : Option (List Char) :=
  let lines := raw_output.splitOn '\n'
  if lines = [] then some raw_output
  else (post_process_lines cfg y_label x_label lines).map
    (fun ls => List.intercalate ['\n'] ls)

/-! ## Bounds facts about the detection loops -/

lemma get?_eq_getD {α : Type} (l : List α) (d : α) (i : Nat)
    (h : i < l.length) : l.get? i = some (l.getD i d) := by
  rw [List.getD_eq_getElem l d h, List.get?_eq_getElem?,
    List.getElem?_eq_getElem h]

/-- Invariant of the first/last scans: either both sentinels, or two
in-bounds indices in order whose rows satisfy the predicate. -/
def flInv (p : List Char → Bool) (L0 : List (List Char)) (bound : Nat)
    (st : Int × Int) : Prop :=
  (st.1 = -1 ∧ st.2 = -1) ∨
  (∃ kf kl : Nat, st.1 = (kf : Int) ∧ st.2 = (kl : Int) ∧ kf ≤ kl
    ∧ kl < bound ∧ kl < L0.length ∧ kf < L0.length
    ∧ p (L0.getD kf []) = true ∧ p (L0.getD kl []) = true)

lemma firstLastAux_inv (p : List Char → Bool) (L0 : List (List Char)) :
    ∀ (l : List (List Char)) (i : Nat) (st : Int × Int),
      (∀ k, l.get? k = L0.get? (i + k)) →
      flInv p L0 i st →
      flInv p L0 (i + l.length) (firstLastAux p i st.1 st.2 l) := by
  intro l
  induction l with
  | nil => intro i st _ h; simpa [firstLastAux] using h
  | cons x rest ih =>
    intro i st hsub hst
    have hx : L0.get? i = some x := by
      have := hsub 0
      simpa using this.symm
    have hilt : i < L0.length := by
      have := List.get?_eq_some.mp hx
      exact this.choose
    have hxd : L0.getD i [] = x := by
      have h2 := get?_eq_getD L0 [] i hilt
      rw [hx] at h2
      exact (Option.some_injective _ h2).symm
    have hsub' : ∀ k, rest.get? k = L0.get? (i + 1 + k) := by
      intro k
      have := hsub (k + 1)
      simpa [Nat.add_comm, Nat.add_left_comm, Nat.add_assoc] using this
    by_cases hp : p x = true
    · have step : firstLastAux p i st.1 st.2 (x :: rest)
          = firstLastAux p (i + 1) (if st.1 = -1 then (i : Int) else st.1)
              (i : Int) rest := by
        simp [firstLastAux, hp]
      rw [step]
      have hst' : flInv p L0 (i + 1)
          ((if st.1 = -1 then (i : Int) else st.1), (i : Int)) := by
        rcases hst with ⟨h1, _⟩ | ⟨kf, kl, h1, h2, h3, h4, h5, h6, h7, h8⟩
        · right
          refine ⟨i, i, by simp [h1], rfl, le_refl i, by omega, hilt, hilt,
            ?_, ?_⟩ <;> rw [hxd] <;> exact hp
        · right
          have hne : st.1 ≠ -1 := by rw [h1]; omega
          refine ⟨kf, i, by simp [hne, h1], rfl, by omega, by omega, hilt,
            h6, h7, ?_⟩
          rw [hxd]; exact hp
      have := ih (i + 1)
        ((if st.1 = -1 then (i : Int) else st.1), (i : Int)) hsub' hst'
      simpa [Nat.add_comm, Nat.add_left_comm, Nat.add_assoc] using this
    · have step : firstLastAux p i st.1 st.2 (x :: rest)
          = firstLastAux p (i + 1) st.1 st.2 rest := by
        simp [firstLastAux, hp]
      rw [step]
      have hst' : flInv p L0 (i + 1) st := by
        rcases hst with h | ⟨kf, kl, h1, h2, h3, h4, h5, h6, h7, h8⟩
        · exact Or.inl h
        · exact Or.inr ⟨kf, kl, h1, h2, h3, by omega, h5, h6, h7, h8⟩
      have := ih (i + 1) st hsub' hst'
      simpa [Nat.add_comm, Nat.add_left_comm, Nat.add_assoc] using this

lemma firstLast_inv (p : List Char → Bool) (lines : List (List Char)) :
    flInv p lines lines.length (firstLast p lines) := by
  have := firstLastAux_inv p lines lines 0 (-1, -1)
    (fun k => by simp) (Or.inl ⟨rfl, rfl⟩)
  simpa [firstLast] using this

lemma intRange_mem {a b j : Int} (h : j ∈ intRange a b) :
    a ≤ j ∧ j < b := by
  unfold intRange at h
  obtain ⟨k, hk, hjk⟩ := List.mem_map.mp h
  have hk2 : k < (b - a).toNat := List.mem_range.mp hk
  omega

lemma scanTypical_cons (lines : List (List Char)) (j : Int)
    (rest : List Int) :
    scanTypical lines (j :: rest) =
      Option.bind (pyIdx? lines j) (fun line =>
        if '|' ∈ line then some (strFind line '|', strRfind line '|')
        else scanTypical lines rest) := rfl

lemma scanTypical_isSome (lines : List (List Char)) :
    ∀ (idxs : List Int),
      (∀ j ∈ idxs, 0 ≤ j ∧ j.toNat < lines.length) →
      ∃ tp, scanTypical lines idxs = some tp := by
  intro idxs
  induction idxs with
  | nil => intro _; exact ⟨(-1, -1), rfl⟩
  | cons j rest ih =>
    intro hb
    have hj := hb j (List.mem_cons_self j rest)
    have hidx : pyIdx? lines j = some (lines.getD j.toNat []) := by
      rw [pyIdx?, if_pos hj.1]
      exact get?_eq_getD lines [] j.toNat hj.2
    rw [scanTypical_cons, hidx]
    by_cases hpipe : '|' ∈ lines.getD j.toNat []
    · exact ⟨_, by rw [Option.some_bind, if_pos hpipe]⟩
    · obtain ⟨tp, htp⟩ := ih (fun x hx => hb x (List.mem_cons_of_mem j hx))
      exact ⟨tp, by rw [Option.some_bind, if_neg hpipe, htp]⟩

lemma rewriteTick_eq_pos (lines : List (List Char)) (r tps bl : Int)
    (hr : r < (lines.length : Int)) :
    rewriteTick lines r tps bl =
      Option.bind (pyIdx? lines r) (fun line =>
        match leadNumMatch line with
        | some g => pySet? lines r (mkBorderLine tps bl (pyStrip g))
        | none => pure lines) := by
  have h : rewriteTick lines r tps bl =
      if r < (lines.length : Int) then
        Option.bind (pyIdx? lines r) (fun line =>
          match leadNumMatch line with
          | some g => pySet? lines r (mkBorderLine tps bl (pyStrip g))
          | none => pure lines)
      else pure lines := rfl
  rw [h, if_pos hr]

lemma rewriteTick_isSome (lines : List (List Char)) (r tps bl : Int)
    (h0 : 0 ≤ r) (hlt : r.toNat < lines.length) :
    ∃ out, rewriteTick lines r tps bl = some out
      ∧ out.length = lines.length := by
  have hr : r < (lines.length : Int) := by omega
  have hidx : pyIdx? lines r = some (lines.getD r.toNat []) := by
    rw [pyIdx?, if_pos h0]
    exact get?_eq_getD lines [] r.toNat hlt
  rw [rewriteTick_eq_pos lines r tps bl hr, hidx, Option.some_bind]
  rcases hm : leadNumMatch (lines.getD r.toNat []) with _ | g
  · exact ⟨lines, rfl, rfl⟩
  · refine ⟨lines.set r.toNat (mkBorderLine tps bl (pyStrip g)), ?_, ?_⟩
    · show pySet? lines r (mkBorderLine tps bl (pyStrip g)) = _
      unfold pySet?
      rw [if_pos ⟨h0, hlt⟩]
    · exact List.length_set lines r.toNat _

/-- `borderBlock` unfolded by definitional equality. -/
lemma borderBlock_eq (gs ge : Int) (lines : List (List Char)) :
    borderBlock gs ge lines =
      if gs ≠ -1 ∧ ge ≠ -1 then
        Option.bind (scanTypical lines (intRange gs (ge + 1))) (fun tp =>
          if (firstLast isYLine lines).1 ≠ -1
              ∧ (firstLast isYLine lines).2 ≠ -1 ∧ tp.1 ≠ -1 then
            Option.bind (rewriteTick lines (firstLast isYLine lines).1 tp.1
                (if tp.1 ≠ -1 ∧ tp.2 ≠ -1 then tp.2 - tp.1 - 1 else 60))
              (fun l1 =>
                Option.bind (rewriteTick l1 (firstLast isYLine lines).2 tp.1
                    (if tp.1 ≠ -1 ∧ tp.2 ≠ -1 then tp.2 - tp.1 - 1 else 60))
                  (fun l2 => some l2))
          else some lines)
      else some lines := rfl

lemma borderBlock_skip (gs ge : Int) (lines : List (List Char))
    (h : ¬(gs ≠ -1 ∧ ge ≠ -1)) : borderBlock gs ge lines = some lines := by
  rw [borderBlock_eq, if_neg h]

lemma borderBlock_isSome (gs ge : Int) (lines : List (List Char))
    (h : (gs = -1 ∧ ge = -1)
      ∨ (∃ a b : Nat, gs = (a : Int) ∧ ge = (b : Int) ∧ a ≤ b
          ∧ b < lines.length)) :
    ∃ out, borderBlock gs ge lines = some out
      ∧ out.length = lines.length := by
  rcases h with ⟨h1, h2⟩ | ⟨a, b, rfl, rfl, hab, hblt⟩
  · exact ⟨lines, borderBlock_skip gs ge lines (by rw [h1]; simp), rfl⟩
  · have hcond : (a : Int) ≠ -1 ∧ (b : Int) ≠ -1 := by
      constructor <;> omega
    obtain ⟨tp, htp⟩ := scanTypical_isSome lines (intRange a ((b : Int) + 1))
      (by
        intro j hj
        have hj2 := intRange_mem hj
        constructor
        · omega
        · omega)
    rw [borderBlock_eq, if_pos hcond, htp, Option.some_bind]
    have hfl := firstLast_inv isYLine lines
    rcases hfl with ⟨hf1, hf2⟩ | ⟨kf, kl, hf1, hf2, hord, _, hkl, hkf, _, _⟩
    · have hbranch : ¬((firstLast isYLine lines).1 ≠ -1
          ∧ (firstLast isYLine lines).2 ≠ -1 ∧ tp.1 ≠ -1) := by
        rw [hf1]; simp
      rw [if_neg hbranch]
      exact ⟨lines, rfl, rfl⟩
    · by_cases htp1 : tp.1 = -1
      · have hbranch : ¬((firstLast isYLine lines).1 ≠ -1
            ∧ (firstLast isYLine lines).2 ≠ -1 ∧ tp.1 ≠ -1) := by
          simp [htp1]
        rw [if_neg hbranch]
        exact ⟨lines, rfl, rfl⟩
      · obtain ⟨out1, hout1, hlen1⟩ := rewriteTick_isSome lines
          (firstLast isYLine lines).1 tp.1
          (if tp.1 ≠ -1 ∧ tp.2 ≠ -1 then tp.2 - tp.1 - 1 else 60)
          (by rw [hf1]; omega) (by rw [hf1]; simpa using hkf)
        obtain ⟨out2, hout2, hlen2⟩ := rewriteTick_isSome out1
          (firstLast isYLine lines).2 tp.1
          (if tp.1 ≠ -1 ∧ tp.2 ≠ -1 then tp.2 - tp.1 - 1 else 60)
          (by rw [hf2]; omega) (by rw [hf2, hlen1]; simpa using hkl)
        have hbranch : (firstLast isYLine lines).1 ≠ -1
            ∧ (firstLast isYLine lines).2 ≠ -1 ∧ tp.1 ≠ -1 :=
          ⟨by rw [hf1]; omega, by rw [hf2]; omega, htp1⟩
        rw [if_pos hbranch, hout1, Option.some_bind, hout2, Option.some_bind]
        exact ⟨out2, rfl, by omega⟩

/-- Totality of the post-processing passes on a row list: every guarded
access succeeds, so no pass can fail. -/
lemma post_process_lines_isSome (cfg : Config) (y_label x_label : List Char)
    (lines : List (List Char)) :
    ∃ out, post_process_lines cfg y_label x_label lines = some out := by
  have hgb := firstLast_inv boxRowP lines
  have hlen : (lines.map (substLine cfg)).length = lines.length :=
    List.length_map _ _
  have h : ((graphBounds lines).1 = -1 ∧ (graphBounds lines).2 = -1)
      ∨ (∃ a b : Nat, (graphBounds lines).1 = (a : Int)
          ∧ (graphBounds lines).2 = (b : Int) ∧ a ≤ b
          ∧ b < (lines.map (substLine cfg)).length) := by
    rcases hgb with h | ⟨kf, kl, h1, h2, h3, _, h5, _, _, _⟩
    · exact Or.inl h
    · exact Or.inr ⟨kf, kl, h1, h2, h3, by rw [hlen]; exact h5⟩
  obtain ⟨out, hout, _⟩ := borderBlock_isSome (graphBounds lines).1
    (graphBounds lines).2 (lines.map (substLine cfg)) h
  have heq : post_process_lines cfg y_label x_label lines =
      Option.bind (borderBlock (graphBounds lines).1 (graphBounds lines).2
          (lines.map (substLine cfg)))
        (fun ls => some (metaBlock cfg y_label x_label
          (overlayBlock cfg (graphBounds lines).1 (graphBounds lines).2
            y_label ls))) := rfl
  rw [heq, hout, Option.some_bind]
  exact ⟨_, rfl⟩

/-- Totality of `post_process_ascii_output` on strings. -/
lemma post_process_output_isSome (cfg : Config)
    (raw_output y_label x_label : List Char) :
    ∃ out, post_process_ascii_output cfg raw_output y_label x_label
      = some out := by
  unfold post_process_ascii_output
  by_cases h : raw_output.splitOn '\n' = []
  · rw [if_pos h]
    exact ⟨raw_output, rfl⟩
  · rw [if_neg h]
    obtain ⟨out, hout⟩ := post_process_lines_isSome cfg y_label x_label
      (raw_output.splitOn '\n')
    rw [hout]
    exact ⟨_, rfl⟩

/-- **C10.** The post-processing function is total: for every input
string, y-axis label, x-axis label, and configuration it returns a string
without raising — every row index it writes is bounds-checked and every
character access is guarded, so the `Option` embedding can never produce
`none`. -/
theorem post_process_total (cfg : Config)
    (raw_output y_label x_label : List Char) :
    ∃ out, post_process_ascii_output cfg raw_output y_label x_label
      = some out :=
  post_process_output_isSome cfg raw_output y_label x_label

/-- **C6.** Whenever a detection step finds no qualifying rows — no
bounding-box rows (`graph_start = -1`), no border columns
(`typical_pipe_start = -1`), or no numeric tick rows
(`first_y_line = -1`) — the post-processor silently skips the dependent
rewrite (the grid passes through the border pass unchanged) and still
returns a grid, never failing. -/
theorem detection_fallback (cfg : Config) (y_label x_label : List Char)
    (lines : List (List Char)) :
    (∀ ge, borderBlock (-1) ge lines = some lines)
    ∧ (∀ gs ge tp, gs ≠ -1 → ge ≠ -1 →
        scanTypical lines (intRange gs (ge + 1)) = some tp → tp.1 = -1 →
        borderBlock gs ge lines = some lines)
    ∧ (∀ gs ge tp, gs ≠ -1 → ge ≠ -1 →
        scanTypical lines (intRange gs (ge + 1)) = some tp →
        (firstLast isYLine lines).1 = -1 →
        borderBlock gs ge lines = some lines)
    ∧ (∃ out, post_process_lines cfg y_label x_label lines = some out) := by
  refine ⟨?_, ?_, ?_, post_process_lines_isSome cfg y_label x_label lines⟩
  · intro ge
    exact borderBlock_skip (-1) ge lines (by simp)
  · intro gs ge tp hgs hge htp htp1
    rw [borderBlock_eq, if_pos ⟨hgs, hge⟩, htp, Option.some_bind,
      if_neg (by simp [htp1])]
  · intro gs ge tp hgs hge htp hfl
    rw [borderBlock_eq, if_pos ⟨hgs, hge⟩, htp, Option.some_bind,
      if_neg (by simp [hfl])]

/-- Witness for C6 on a concrete one-row grid with no box row, no pipe
column, and no tick row. -/
theorem detection_fallback_witness :
    borderBlock (-1) (-1) [['a']] = some [['a']]
    ∧ borderBlock 0 0 [['a']] = some [['a']]
    ∧ (∃ out,
        post_process_lines cfgDefault "y".toList "x".toList [['a']]
          = some out) := by
  have h := detection_fallback cfgDefault "y".toList "x".toList [['a']]
  refine ⟨h.1 (-1), ?_, h.2.2.2⟩
  exact h.2.2.1 0 0 (-1, -1) (by decide) (by decide) (by decide) (by decide)

/-! ## Structure of the reconstructed border rows (C1) -/

/-- Shape of a reconstructed border row: some padding, the label, one
space, then a corner, `border_length` rules, and a closing corner; the
opening corner sits at the left border column whenever the label fits,
and no padding is emitted otherwise. -/
lemma mkBorderLine_shape (tps bl : Int) (v : List Char) :
    ∃ p : Nat,
      mkBorderLine tps bl v
        = List.replicate p ' ' ++ v
            ++ ' ' :: '+' :: List.replicate bl.toNat '-' ++ ['+']
      ∧ ((v.length : Int) + 1 ≤ tps → (p : Int) + v.length + 1 = tps)
      ∧ (tps < (v.length : Int) + 1 → p = 0) := by
  unfold mkBorderLine
  by_cases h : 0 < (tps - 1) - (v.length : Int)
  · rw [if_pos h]
    exact ⟨((tps - 1) - (v.length : Int)).toNat, rfl,
      fun _ => by omega, fun h2 => by omega⟩
  · rw [if_neg h]
    exact ⟨0, by simp, fun h2 => by omega, fun _ => rfl⟩

lemma dropWhile_eq_drop {α : Type} (p : α → Bool) (l : List α) :
    l.dropWhile p = l.drop (l.takeWhile p).length := by
  induction l with
  | nil => rfl
  | cons x xs ih =>
    by_cases h : p x = true
    · simp only [List.dropWhile_cons, List.takeWhile_cons, h, if_true]
      simpa using ih
    · have h2 : p x = false := by
        cases hpx : p x
        · rfl
        · exact absurd hpx h
      simp [List.dropWhile_cons, List.takeWhile_cons, h2]

/-- `strip` keeps a prefix of the whitespace-left-trimmed string. -/
lemma pyStrip_eq_take (line : List Char) :
    ∃ m, pyStrip line = (line.dropWhile isPySpace).take m := by
  refine ⟨(line.dropWhile isPySpace).length
    - ((line.dropWhile isPySpace).reverse.takeWhile isPySpace).length, ?_⟩
  unfold pyStrip
  rw [dropWhile_eq_drop isPySpace ((line.dropWhile isPySpace).reverse),
    List.reverse_drop, List.reverse_reverse, List.length_reverse]

lemma pyStrip_head (line : List Char) (h : pyStrip line ≠ []) :
    ∃ rest, line.dropWhile isPySpace
      = (pyStrip line).getD 0 ' ' :: rest := by
  obtain ⟨m, hm⟩ := pyStrip_eq_take line
  cases hz : line.dropWhile isPySpace with
  | nil =>
    rw [hz] at hm
    simp at hm
    exact absurd hm h
  | cons c rest =>
    refine ⟨rest, ?_⟩
    rw [hm, hz]
    cases m with
    | zero =>
      rw [hm, hz] at h
      simp at h
    | succ m2 => rfl

lemma pyStrip_subset (g : List Char) : ∀ c ∈ pyStrip g, c ∈ g := by
  intro c hc
  obtain ⟨m, hm⟩ := pyStrip_eq_take g
  rw [hm] at hc
  exact List.dropWhile_subset isPySpace (List.take_subset m _ hc)

/-- `leadNumMatch` with its `let`-bindings unfolded. -/
lemma leadNumMatch_eq (line : List Char) :
    leadNumMatch line =
      match line.dropWhile isPySpace with
      | c :: tl =>
        if numClass c = true then
          some (List.takeWhile numClass (c :: tl))
        else if 0 < (line.takeWhile isPySpace).length then some [' ']
        else none
      | [] =>
        if 0 < (line.takeWhile isPySpace).length then some [' ']
        else none := by
  unfold leadNumMatch
  cases hz : line.dropWhile isPySpace <;> rfl

lemma leadNumMatch_eq_cons (line : List Char) (c : Char) (tl : List Char)
    (hz : line.dropWhile isPySpace = c :: tl) :
    leadNumMatch line =
      if numClass c = true then some (List.takeWhile numClass (c :: tl))
      else if 0 < (line.takeWhile isPySpace).length then some [' ']
      else none := by
  rw [leadNumMatch_eq, hz]

lemma leadNumMatch_eq_nil (line : List Char)
    (hz : line.dropWhile isPySpace = []) :
    leadNumMatch line =
      if 0 < (line.takeWhile isPySpace).length then some [' ']
      else none := by
  rw [leadNumMatch_eq, hz]

/-- Any matched leading-numeric group consists of class characters. -/
lemma leadNumMatch_subset (line g : List Char)
    (h : leadNumMatch line = some g) : ∀ c ∈ g, numClass c = true := by
  intro c hc
  rcases hz : line.dropWhile isPySpace with _ | ⟨d, rest⟩
  · rw [leadNumMatch_eq_nil line hz] at h
    by_cases hw : 0 < (line.takeWhile isPySpace).length
    · rw [if_pos hw] at h
      obtain rfl : [' '] = g := Option.some_injective _ h
      have hc2 : c = ' ' := by simpa using hc
      rw [hc2]
      decide
    · rw [if_neg hw] at h
      exact absurd h (by simp)
  · rw [leadNumMatch_eq_cons line d rest hz] at h
    by_cases hd : numClass d = true
    · rw [if_pos hd] at h
      obtain rfl : (d :: rest).takeWhile numClass = g :=
        Option.some_injective _ h
      exact List.mem_takeWhile_imp hc
    · rw [if_neg hd] at h
      by_cases hw : 0 < (line.takeWhile isPySpace).length
      · rw [if_pos hw] at h
        obtain rfl : [' '] = g := Option.some_injective _ h
        have hc2 : c = ' ' := by simpa using hc
        rw [hc2]
        decide
      · rw [if_neg hw] at h
        exact absurd h (by simp)

/-- The leading-numeric pattern matches any line whose first character is
in the class (whitespace included). -/
lemma leadNumMatch_isSome_cons (c : Char) (rest : List Char)
    (hc : numClass c = true) : (leadNumMatch (c :: rest)).isSome := by
  by_cases hws : isPySpace c = true
  · have hwlen : 0 < ((c :: rest).takeWhile isPySpace).length := by
      rw [List.takeWhile_cons, if_pos hws]
      simp
    rcases hz : (c :: rest).dropWhile isPySpace with _ | ⟨d, tl⟩
    · rw [leadNumMatch_eq_nil _ hz, if_pos hwlen]
      rfl
    · rw [leadNumMatch_eq_cons _ d tl hz]
      by_cases hd : numClass d = true
      · rw [if_pos hd]
        rfl
      · rw [if_neg hd, if_pos hwlen]
        rfl
  · have hz : (c :: rest).dropWhile isPySpace = c :: rest := by
      rw [List.dropWhile_cons, if_neg (by simpa using hws)]
    rw [leadNumMatch_eq_cons _ c rest hz, if_pos hc]
    rfl

/-- A reconstructed border row itself still matches the leading-numeric
pattern (all its leading characters are class characters). -/
lemma leadNumMatch_mkBorder_isSome (tps bl : Int) (v : List Char)
    (hv : ∀ c ∈ v, numClass c = true) :
    (leadNumMatch (mkBorderLine tps bl v)).isSome := by
  unfold mkBorderLine
  by_cases h : 0 < (tps - 1) - (v.length : Int)
  · rw [if_pos h]
    rcases hp : ((tps - 1) - (v.length : Int)).toNat with _ | n
    · omega
    · rw [List.replicate_succ, List.cons_append, List.cons_append]
      exact leadNumMatch_isSome_cons ' ' _ (by decide)
  · rw [if_neg h]
    cases v with
    | nil => exact leadNumMatch_isSome_cons ' ' _ (by decide)
    | cons c cs =>
      rw [List.cons_append]
      exact leadNumMatch_isSome_cons c _ (hv c (List.mem_cons_self c cs))

lemma numClass_of_isDigit {c : Char} (h : c.isDigit = true) :
    numClass c = true := by
  simp [numClass, h]

/-- `isYLine` with its `let`-binding unfolded. -/
lemma isYLine_eq (line : List Char) :
    isYLine line =
      if pyStrip line = [] then false
      else if ((pyStrip line).getD 0 ' ').isDigit = true
          ∨ (1 < (pyStrip line).length ∧ (pyStrip line).getD 0 ' ' = '0'
              ∧ (pyStrip line).getD 1 ' ' = '.')
          ∨ ((pyStrip line).getD 0 ' '
              ∈ ['1', '2', '3', '4', '5', '6', '7', '8', '9']) then
        if "e ".toList <:+: pyStrip line ∨ "e+".toList <:+: pyStrip line
            ∨ "e-".toList <:+: pyStrip line then true
        else if (pyStrip line).count ' ' ≤ 2
            ∧ ((pyStrip line).take 15).any Char.isDigit = true then
          ! isXScale (pyStrip line)
        else false
      else false := rfl

/-- A numeric tick row always yields a leading-numeric match: its
stripped form starts with a digit, hence so does its left-trimmed form. -/
lemma isYLine_leadNumMatch (line : List Char) (h : isYLine line = true) :
    (leadNumMatch line).isSome := by
  rw [isYLine_eq] at h
  by_cases hnil : pyStrip line = []
  · rw [if_pos hnil] at h
    exact absurd h (by simp)
  · rw [if_neg hnil] at h
    obtain ⟨rest, hrest⟩ := pyStrip_head line hnil
    generalize hc0 : (pyStrip line).getD 0 ' ' = c0 at h hrest
    have hdig : numClass c0 = true := by
      by_cases hcond : c0.isDigit = true
          ∨ (1 < (pyStrip line).length ∧ c0 = '0'
              ∧ (pyStrip line).getD 1 ' ' = '.')
          ∨ (c0 ∈ ['1', '2', '3', '4', '5', '6', '7', '8', '9'])
      · rcases hcond with h1 | ⟨_, h2, _⟩ | h3
        · exact numClass_of_isDigit h1
        · rw [h2]
          decide
        · fin_cases h3 <;> decide
      · rw [if_neg hcond] at h
        exact absurd h (by simp)
    rw [leadNumMatch_eq_cons line c0 rest hrest, if_pos hdig]
    rfl

lemma getD_of_get? {α : Type} {l : List α} {i : Nat} {a : α} (d : α)
    (h : l.get? i = some a) : l.getD i d = a := by
  rw [List.getD_eq_getElem?_getD, ← List.get?_eq_getElem?, h]
  rfl

/-- `borderBlock` once the pipe scan has produced `(tps, tpe)`. -/
lemma borderBlock_run (gs ge tps tpe : Int) (lines : List (List Char))
    (hgs : gs ≠ -1) (hge : ge ≠ -1)
    (htp : scanTypical lines (intRange gs (ge + 1)) = some (tps, tpe)) :
    borderBlock gs ge lines =
      if (firstLast isYLine lines).1 ≠ -1
          ∧ (firstLast isYLine lines).2 ≠ -1 ∧ tps ≠ -1 then
        Option.bind (rewriteTick lines (firstLast isYLine lines).1 tps
            (if tps ≠ -1 ∧ tpe ≠ -1 then tpe - tps - 1 else 60))
          (fun l1 =>
            Option.bind (rewriteTick l1 (firstLast isYLine lines).2 tps
                (if tps ≠ -1 ∧ tpe ≠ -1 then tpe - tps - 1 else 60))
              (fun l2 => some l2))
      else some lines := by
  rw [borderBlock_eq, if_pos ⟨hgs, hge⟩, htp, Option.some_bind]

/-- A successful tick-row rewrite, with the resulting grid spelled out. -/
lemma rewriteTick_run (lines : List (List Char)) (k : Nat) (tps bl : Int)
    (g : List Char) (hk : k < lines.length)
    (hg : leadNumMatch (lines.getD k []) = some g) :
    rewriteTick lines (k : Int) tps bl
      = some (lines.set k (mkBorderLine tps bl (pyStrip g))) := by
  have hlt : (k : Int) < (lines.length : Int) := by omega
  rw [rewriteTick_eq_pos lines (k : Int) tps bl hlt]
  have hidx : pyIdx? lines (k : Int) = some (lines.getD k []) := by
    rw [pyIdx?, if_pos (by omega)]
    rw [Int.toNat_natCast]
    exact get?_eq_getD lines [] k hk
  rw [hidx, Option.some_bind, hg]
  show pySet? lines (k : Int) (mkBorderLine tps bl (pyStrip g)) = _
  unfold pySet?
  rw [if_pos ⟨by omega, by rw [Int.toNat_natCast]; exact hk⟩]
  rw [Int.toNat_natCast]

/-- **C1.** Given a detected box whose representative row has its first
vertical border at column `C` and its last at column `C + L + 1`, the
border-reconstruction pass rewrites the first and last numeric tick rows
into rows that end with exactly `L` horizontal-rule characters bounded by
two corner characters; the opening corner sits at column `C` whenever the
extracted numeric label (plus its separating space) fits to the left of
the border, and the label is placed immediately next to the border with
no padding otherwise. -/
theorem border_reconstruction (gs ge C L : Int) (lines : List (List Char))
    (hC : 0 ≤ C) (hL : 0 ≤ L) (hgs : gs ≠ -1) (hge : ge ≠ -1)
    (htp : scanTypical lines (intRange gs (ge + 1)) = some (C, C + L + 1))
    (hfy : (firstLast isYLine lines).1 ≠ -1)
    (hly : (firstLast isYLine lines).2 ≠ -1) :
    ∃ out vf vl,
      borderBlock gs ge lines = some out
      ∧ out.get? (firstLast isYLine lines).2.toNat
          = some (mkBorderLine C L vl)
      ∧ ((firstLast isYLine lines).1 ≠ (firstLast isYLine lines).2 →
          out.get? (firstLast isYLine lines).1.toNat
            = some (mkBorderLine C L vf))
      ∧ (∀ v : List Char, ∃ p : Nat,
          mkBorderLine C L v
            = List.replicate p ' ' ++ v
                ++ ' ' :: '+' :: List.replicate L.toNat '-' ++ ['+']
          ∧ ((v.length : Int) + 1 ≤ C → (p : Int) + v.length + 1 = C)
          ∧ (C < (v.length : Int) + 1 → p = 0)) := by
  rcases firstLast_inv isYLine lines with ⟨h1, _⟩ |
    ⟨kf, kl, hf1, hf2, hord, _, hkl, hkf, hpkf, hpkl⟩
  · exact absurd h1 hfy
  obtain ⟨gf, hgf⟩ := Option.isSome_iff_exists.mp
    (isYLine_leadNumMatch _ hpkf)
  have hr1 := rewriteTick_run lines kf C L gf hkf hgf
  set set1 := lines.set kf (mkBorderLine C L (pyStrip gf)) with hset1
  have hlen1 : set1.length = lines.length := List.length_set lines kf _
  -- the row read by the second rewrite
  have hget2 : ∃ gl, leadNumMatch (set1.getD kl []) = some gl := by
    by_cases hkfkl : kf = kl
    · have hv : set1.getD kl [] = mkBorderLine C L (pyStrip gf) := by
        refine getD_of_get? [] ?_
        rw [← hkfkl, hset1]
        exact List.get?_set_eq_of_lt _ hkf
      rw [hv]
      exact Option.isSome_iff_exists.mp
        (leadNumMatch_mkBorder_isSome C L (pyStrip gf)
          (fun c hc => leadNumMatch_subset _ _ hgf c (pyStrip_subset gf c hc)))
    · have hv : set1.getD kl [] = lines.getD kl [] := by
        refine getD_of_get? [] ?_
        rw [hset1, List.get?_set_ne _ lines hkfkl]
        exact get?_eq_getD lines [] kl hkl
      rw [hv]
      exact Option.isSome_iff_exists.mp (isYLine_leadNumMatch _ hpkl)
  obtain ⟨gl, hgl⟩ := hget2
  have hr2 := rewriteTick_run set1 kl C L gl (by omega) hgl
  have hbranch : (firstLast isYLine lines).1 ≠ -1
      ∧ (firstLast isYLine lines).2 ≠ -1 ∧ C ≠ -1 :=
    ⟨hfy, hly, by omega⟩
  have hbl : (if C ≠ -1 ∧ C + L + 1 ≠ -1 then C + L + 1 - C - 1 else 60)
      = L := by
    rw [if_pos ⟨by omega, by omega⟩]
    ring
  have hchain : Option.bind
      (rewriteTick lines (firstLast isYLine lines).1 C L)
      (fun l1 =>
        Option.bind (rewriteTick l1 (firstLast isYLine lines).2 C L)
          (fun l2 => some l2))
      = some (set1.set kl (mkBorderLine C L (pyStrip gl))) := by
    rw [hf1, hr1, Option.some_bind]
    show Option.bind (rewriteTick set1 (firstLast isYLine lines).2 C L)
      (fun l2 => some l2) = _
    rw [hf2, hr2, Option.some_bind]
  rw [borderBlock_run gs ge C (C + L + 1) lines hgs hge htp, hbl,
    if_pos hbranch, hchain]
  refine ⟨set1.set kl (mkBorderLine C L (pyStrip gl)), pyStrip gf,
    pyStrip gl, rfl, ?_, ?_, fun v => mkBorderLine_shape C L v⟩
  · rw [hf2, Int.toNat_natCast]
    exact List.get?_set_eq_of_lt _ (by omega)
  · intro hne
    rw [hf1, hf2] at hne
    have hne2 : kf ≠ kl := by
      intro hcon
      rw [hcon] at hne
      exact hne rfl
    rw [hf1, Int.toNat_natCast, List.get?_set_ne _ set1 (Ne.symm hne2)]
    rw [hset1]
    exact List.get?_set_eq_of_lt _ hkf

/-- A concrete tick row doubling as a box row: a scientific-notation
label, the left border at column 10 and the right border at column 51. -/
def c1row0 : List Char :=
  "  1e 07   ".toList ++ '|' :: List.replicate 40 ' ' ++ ['|']

/-- A second such row, so the first and last tick rows differ. -/
def c1row1 : List Char :=
  "  9e 06   ".toList ++ '|' :: List.replicate 40 ' ' ++ ['|']

/-- Witness for C1 on a concrete two-row grid with `C = 10`, `L = 40`. -/
theorem border_reconstruction_witness :
    ∃ out vf vl,
      borderBlock 0 1 [c1row0, c1row1] = some out
      ∧ out.get? (firstLast isYLine [c1row0, c1row1]).2.toNat
          = some (mkBorderLine 10 40 vl)
      ∧ ((firstLast isYLine [c1row0, c1row1]).1
            ≠ (firstLast isYLine [c1row0, c1row1]).2 →
          out.get? (firstLast isYLine [c1row0, c1row1]).1.toNat
            = some (mkBorderLine 10 40 vf))
      ∧ (∀ v : List Char, ∃ p : Nat,
          mkBorderLine 10 40 v
            = List.replicate p ' ' ++ v
                ++ ' ' :: '+' :: List.replicate (40 : Int).toNat '-'
                ++ ['+']
          ∧ ((v.length : Int) + 1 ≤ 10 → (p : Int) + v.length + 1 = 10)
          ∧ ((10 : Int) < (v.length : Int) + 1 → p = 0)) :=
  border_reconstruction 0 1 10 40 [c1row0, c1row1]
    (by decide) (by decide) (by decide) (by decide)
    (by decide) (by decide) (by decide)

/-! ## Pass 2: protected rows and glyph substitution (C4, C5) -/

/-- Pointwise effect of the decoration-stripping step. -/
def stripChar (c : Char) : Char :=
  if c = '-' then ' ' else if c = '_' then ' ' else if c = '+' then ' '
  else c

lemma get?_map_char (f : Char → Char) (l : List Char) (i : Nat) :
    (l.map f).get? i = (l.get? i).map f := List.get?_map f l i

/-- `stripDecor` acts pointwise as `stripChar`. -/
lemma stripDecor_get? (l : List Char) (i : Nat) (c : Char)
    (hc : l.get? i = some c) :
    (stripDecor l).get? i = some (stripChar c) := by
  unfold stripDecor
  set l2 := (l.map fun c => if c = '-' then ' ' else c).map
    (fun c => if c = '_' then ' ' else c) with hl2
  have hl2get : l2.get? i
      = some (if (if c = '-' then ' ' else c) = '_' then ' '
          else if c = '-' then ' ' else c) := by
    rw [hl2, get?_map_char, get?_map_char, hc]
    rfl
  by_cases hp : '+' ∈ l2
  · rw [if_pos hp, get?_map_char, hl2get]
    show some _ = some (stripChar c)
    congr 1
    unfold stripChar
    by_cases h1 : c = '-'
    · simp [h1]
    · by_cases h2 : c = '_' <;> by_cases h3 : c = '+' <;>
        simp [h1, h2, h3]
  · rw [if_neg hp, hl2get]
    congr 1
    have hcne : (if (if c = '-' then ' ' else c) = '_' then ' '
        else if c = '-' then ' ' else c) ≠ '+' := by
      intro hcon
      apply hp
      have := List.get?_mem (by rw [hl2get, hcon] :
        l2.get? i = some '+')
      exact this
    unfold stripChar
    by_cases h1 : c = '-'
    · simp [h1]
    · by_cases h2 : c = '_'
      · simp [h1, h2]
      · by_cases h3 : c = '+'
        · exfalso
          apply hcne
          simp [h1, h2, h3]
        · simp [h1, h2, h3]

/-- **C5 (amended).** In the pass over every non-protected row, glyph
substitution is applied before decoration stripping (`substLine` is
definitionally strip-after-substitute), and for every configured glyph
triplet whose primary and secondary glyphs are not themselves decoration
characters (`-`, `_`, `+`), a character holding a configured glyph after
the substitution step is never removed by the stripping step.  (For a
glyph that *is* a decoration character the stripping step does erase it —
see the counterexample.) -/
theorem substitution_before_stripping (cfg : Config) (line : List Char)
    (i : Nat) (c : Char)
    (hp1 : cfg.plot_char_primary ≠ '-') (hp2 : cfg.plot_char_primary ≠ '_')
    (hp3 : cfg.plot_char_primary ≠ '+')
    (hs1 : cfg.plot_char_secondary ≠ '-')
    (hs2 : cfg.plot_char_secondary ≠ '_')
    (hs3 : cfg.plot_char_secondary ≠ '+')
    (hc : (glyphSub cfg line).get? i = some c)
    (hg : c = cfg.plot_char_primary ∨ c = cfg.plot_char_secondary) :
    (stripDecor (glyphSub cfg line)).get? i = some c
    ∧ (∀ l2, isProtected l2 = false →
        substLine cfg l2 = stripDecor (glyphSub cfg l2)) := by
  constructor
  · rw [stripDecor_get? _ _ _ hc]
    congr 1
    unfold stripChar
    rcases hg with rfl | rfl
    · simp [hp1, hp2, hp3]
    · simp [hs1, hs2, hs3]
  · intro l2 hl2
    unfold substLine
    rw [hl2]
    simp

/-- Witness for C5 at a concrete glyph triplet and row. -/
theorem substitution_before_stripping_witness :
    (stripDecor (glyphSub { cfgDefault with plot_char_primary := '#' }
      ['*'])).get? 0 = some '#' :=
  (substitution_before_stripping
    { cfgDefault with plot_char_primary := '#' } ['*'] 0 '#'
    (by decide) (by decide) (by decide) (by decide) (by decide) (by decide)
    (by decide) (Or.inl (by decide))).1

/-- Counterexample to C5 as stated: with the configured primary glyph
`'+'`, the substitution step rewrites the data glyph `*` to `+`, and the
stripping step of the same pass then erases it to a blank. -/
theorem substitution_stripping_counterexample :
    glyphSub { cfgDefault with plot_char_primary := '+' } ['*'] = ['+']
    ∧ stripDecor ['+'] = [' ']
    ∧ substLine { cfgDefault with plot_char_primary := '+' } ['*'] = [' ']
    ∧ ([' '] : List Char) ≠ ['+'] := by
  refine ⟨by decide, by decide, by decide, by decide⟩

/-- **C4 (amended).** Rows containing a protected phrase are byte-identical
before and after the glyph-substitution/decoration-stripping pass (the
pass skips them); later passes (border reconstruction, overlay) may still
modify such rows — see the counterexample. -/
theorem protected_rows_unchanged (cfg : Config) (line : List Char)
    (h : isProtected line = true) : substLine cfg line = line := by
  unfold substLine
  rw [h]
  simp

/-- Witness for C4's amended statement on a concrete protected row. -/
theorem protected_rows_unchanged_witness :
    substLine cfgDefault "Network stuff".toList = "Network stuff".toList :=
  protected_rows_unchanged cfgDefault "Network stuff".toList (by decide)

/-- The row of the C4 counterexample: it contains the protected phrase
`Network` and is also a box row (long, with a vertical border). -/
def c4row : List Char :=
  "Network".toList ++ List.replicate 43 ' ' ++ ['|']

/-- Counterexample to C4 as stated: on a grid whose single box row
contains the protected phrase `Network`, the full post-processing pass
(with the default configuration) prepends the overlaid vertical label to
that row, so the protected row is not byte-identical after the entire
pass. -/
theorem protected_rows_counterexample :
    isProtected c4row = true
    ∧ post_process_lines cfgDefault "B".toList "T".toList [c4row]
        = some [('B' :: ' ' :: c4row)]
    ∧ ('B' :: ' ' :: c4row) ≠ c4row := by
  refine ⟨by decide, by decide, by decide⟩

/-! ## Pass 4: the vertical-label overlay (C3) -/

/-- The observation of claim C3: read the single overlaid character from
each assigned row top-to-bottom and convert the underscore separators
back to spaces. -/
def readBack (ls : List (List Char)) (ms : Int) (n : Nat) : List Char :=
  (List.range n).map (fun (i : Nat) =>
    let c := (ls.getD (ms + (i : Int)).toNat []).headD ' '
    if c = '_' then ' ' else c)

lemma getD_set_ne {α : Type} (l : List α) (d : α) (idx j : Nat) (x : α)
    (h : idx ≠ j) : (l.set idx x).getD j d = l.getD j d := by
  rw [List.getD_eq_getElem?_getD, List.getD_eq_getElem?_getD,
    ← List.get?_eq_getElem?, ← List.get?_eq_getElem?,
    List.get?_set_ne _ _ h]

lemma overlayCharsAux_cons (ms : Int) (i : Nat) (c : Char)
    (cs : List Char) (ls : List (List Char)) :
    overlayCharsAux ms i (c :: cs) ls =
      overlayCharsAux ms (i + 1) cs
        (if 0 ≤ ms + (i : Int) ∧ ms + (i : Int) < (ls.length : Int) then
          ls.set (ms + (i : Int)).toNat
            (c :: ' ' :: ls.getD (ms + (i : Int)).toNat [])
        else ls) := rfl

/-- Rows strictly above all remaining overlay positions are untouched. -/
lemma overlayCharsAux_get_lt (ms : Int) :
    ∀ (cs : List Char) (i : Nat) (ls : List (List Char)) (j : Nat),
      ((j : Int) < ms + (i : Int)) →
      (overlayCharsAux ms i cs ls).get? j = ls.get? j := by
  intro cs
  induction cs with
  | nil => intro i ls j _; rfl
  | cons c cs ih =>
    intro i ls j h
    rw [overlayCharsAux_cons]
    rw [ih (i + 1) _ j (by push_cast; omega)]
    by_cases hb : 0 ≤ ms + (i : Int) ∧ ms + (i : Int) < (ls.length : Int)
    · rw [if_pos hb,
        List.get?_set_ne _ _ (by omega : (ms + (i : Int)).toNat ≠ j)]
    · rw [if_neg hb]

/-- The assigned row `ms + i + k` of the overlay holds the `k`-th label
character, a separator space, and the original row. -/
lemma overlayCharsAux_get_assigned (ms : Int) :
    ∀ (cs : List Char) (i k : Nat) (ls : List (List Char)) (j : Nat),
      k < cs.length →
      (j : Int) = ms + (i : Int) + (k : Int) →
      j < ls.length →
      (overlayCharsAux ms i cs ls).get? j
        = some (cs.getD k ' ' :: ' ' :: ls.getD j []) := by
  intro cs
  induction cs with
  | nil =>
    intro i k ls j hk
    exact absurd hk (by simp)
  | cons c cs ih =>
    intro i k ls j hk hj hjl
    rw [overlayCharsAux_cons]
    cases k with
    | zero =>
      have hb : 0 ≤ ms + (i : Int) ∧ ms + (i : Int) < (ls.length : Int) := by
        constructor <;> omega
      have hidx : (ms + (i : Int)).toNat = j := by omega
      rw [if_pos hb, hidx]
      rw [overlayCharsAux_get_lt ms cs (i + 1) _ j (by push_cast; omega)]
      rw [List.get?_set_eq_of_lt _ hjl]
      simp [List.getD_cons_zero]
    | succ k2 =>
      have hk2 : k2 < cs.length := by simpa using hk
      by_cases hb : 0 ≤ ms + (i : Int) ∧ ms + (i : Int) < (ls.length : Int)
      · rw [if_pos hb]
        have hlen : (ls.set (ms + (i : Int)).toNat
            (c :: ' ' :: ls.getD (ms + (i : Int)).toNat [])).length
            = ls.length := List.length_set ls _ _
        rw [ih (i + 1) k2 _ j hk2 (by push_cast at hj ⊢; omega)
          (by rw [hlen]; exact hjl)]
        rw [getD_set_ne _ _ _ _ _ (by omega : (ms + (i : Int)).toNat ≠ j)]
        rfl
      · rw [if_neg hb]
        rw [ih (i + 1) k2 ls j hk2 (by push_cast at hj ⊢; omega) hjl]
        rfl

lemma alignRows_get? (gs ge ms : Int) (n : Nat) :
    ∀ (ls : List (List Char)) (i j : Nat),
      (alignRows gs ge ms n i ls).get? j
        = (ls.get? j).map (fun row =>
            if gs ≤ ((i + j : Nat) : Int) ∧ ((i + j : Nat) : Int) ≤ ge
                ∧ ¬(ms ≤ ((i + j : Nat) : Int)
                    ∧ ((i + j : Nat) : Int) < ms + (n : Int)) then
              ' ' :: ' ' :: row
            else row) := by
  intro ls
  induction ls with
  | nil => intro i j; rfl
  | cons row rest ih =>
    intro i j
    cases j with
    | zero => rfl
    | succ j2 =>
      show (alignRows gs ge ms n (i + 1) rest).get? j2 = _
      rw [ih (i + 1) j2]
      have harith : (i + 1) + j2 = i + (j2 + 1) := by omega
      rw [harith]
      rfl

/-- **C3 (amended).** With inline y-axis labeling enabled, vertical
rotation and left position, for every y-axis label that contains no
underscore and every grid in which all assigned rows of the centered
label are in bounds, reading the single overlaid character from each
assigned row top-to-bottom and converting the underscore separators back
to spaces reconstructs the original y-axis label exactly.  (Labels that
already contain `_`, or grids too small to hold every label character,
do not round-trip — see the counterexample.) -/
theorem vertical_label_roundtrip (cfg : Config) (gs ge : Int)
    (y_label : List Char) (lines : List (List Char))
    (h1 : cfg.show_ylabel_inline = true)
    (h2 : cfg.ylabel_rotation = "vertical".toList)
    (h3 : cfg.ylabel_position = "left".toList)
    (h4 : '_' ∉ y_label)
    (h5 : ∀ i : Nat, i < y_label.length →
      0 ≤ middleStart gs ge y_label.length + (i : Int)
      ∧ middleStart gs ge y_label.length + (i : Int)
          < (lines.length : Int)) :
    readBack (overlayBlock cfg gs ge y_label lines)
      (middleStart gs ge y_label.length) y_label.length = y_label := by
  have hyc : (y_label.map (fun c => if c = ' ' then '_' else c)).length
      = y_label.length := List.length_map _ _
  have hov : overlayBlock cfg gs ge y_label lines
      = alignRows gs ge (middleStart gs ge y_label.length) y_label.length 0
          (overlayCharsAux (middleStart gs ge y_label.length) 0
            (y_label.map (fun c => if c = ' ' then '_' else c)) lines) := by
    unfold overlayBlock
    rw [h1, if_pos rfl, if_pos ⟨h2, h3⟩]
    show alignRows gs ge
        (middleStart gs ge
          (y_label.map (fun c => if c = ' ' then '_' else c)).length)
        (y_label.map (fun c => if c = ' ' then '_' else c)).length 0
        (overlayCharsAux
          (middleStart gs ge
            (y_label.map (fun c => if c = ' ' then '_' else c)).length) 0
          (y_label.map (fun c => if c = ' ' then '_' else c)) lines) = _
    rw [hyc]
  rw [hov]
  apply List.ext_get?
  intro i
  by_cases hi : i < y_label.length
  · have hms := h5 i hi
    set ms := middleStart gs ge y_label.length with hmsdef
    set j := (ms + (i : Int)).toNat with hjdef
    have hjint : (j : Int) = ms + (i : Int) := by omega
    have hjl : j < lines.length := by omega
    have haux := overlayCharsAux_get_assigned ms
      (y_label.map (fun c => if c = ' ' then '_' else c)) 0 i lines j
      (by rw [hyc]; exact hi) (by omega) hjl
    have hrb : (readBack
        (alignRows gs ge ms y_label.length 0
          (overlayCharsAux ms 0
            (y_label.map (fun c => if c = ' ' then '_' else c)) lines))
        ms y_label.length).get? i
        = some (if ((alignRows gs ge ms y_label.length 0
            (overlayCharsAux ms 0
              (y_label.map (fun c => if c = ' ' then '_' else c))
              lines)).getD j []).headD ' ' = '_' then ' '
          else ((alignRows gs ge ms y_label.length 0
            (overlayCharsAux ms 0
              (y_label.map (fun c => if c = ' ' then '_' else c))
              lines)).getD j []).headD ' ') := by
      unfold readBack
      rw [List.get?_map, List.get?_range hi]
      rfl
    rw [hrb]
    have halign : (alignRows gs ge ms y_label.length 0
        (overlayCharsAux ms 0
          (y_label.map (fun c => if c = ' ' then '_' else c))
          lines)).get? j
        = some ((y_label.map (fun c => if c = ' ' then '_' else c)).getD i
            ' ' :: ' ' :: lines.getD j []) := by
      rw [alignRows_get? gs ge ms y_label.length _ 0 j, haux]
      have hcond : ¬(gs ≤ ((0 + j : Nat) : Int)
          ∧ ((0 + j : Nat) : Int) ≤ ge
          ∧ ¬(ms ≤ ((0 + j : Nat) : Int)
              ∧ ((0 + j : Nat) : Int) < ms + (y_label.length : Int))) := by
        intro hcon
        apply hcon.2.2
        constructor <;> push_cast <;> omega
      rw [Option.map_some']
      rw [if_neg hcond]
    have hgd : (alignRows gs ge ms y_label.length 0
        (overlayCharsAux ms 0
          (y_label.map (fun c => if c = ' ' then '_' else c))
          lines)).getD j []
        = (y_label.map (fun c => if c = ' ' then '_' else c)).getD i ' '
            :: ' ' :: lines.getD j [] := getD_of_get? [] halign
    rw [hgd]
    have hchar : (y_label.map (fun c => if c = ' ' then '_' else c)).getD i
        ' ' = (fun c => if c = ' ' then '_' else c) (y_label.getD i ' ') := by
      refine getD_of_get? ' ' ?_
      rw [List.get?_map, get?_eq_getD y_label ' ' i hi]
      rfl
    have hne : y_label.getD i ' ' ≠ '_' := by
      intro hcon
      apply h4
      rw [← hcon]
      have := get?_eq_getD y_label ' ' i hi
      exact List.get?_mem this
    rw [get?_eq_getD y_label ' ' i hi, hchar]
    show some _ = _
    congr 1
    by_cases hsp : y_label.getD i ' ' = ' '
    · simp only [hsp]
      rfl
    · simp only [if_neg hsp, List.headD_cons, if_neg hne]
  · have hlen1 : (readBack
        (alignRows gs ge (middleStart gs ge y_label.length)
          y_label.length 0
          (overlayCharsAux (middleStart gs ge y_label.length) 0
            (y_label.map (fun c => if c = ' ' then '_' else c)) lines))
        (middleStart gs ge y_label.length) y_label.length).length
        = y_label.length := by
      unfold readBack
      rw [List.length_map, List.length_range]
    rw [List.get?_eq_none.mpr (by omega : y_label.length ≤ i),
      List.get?_eq_none.mpr (by rw [hlen1]; omega)]

/-- A box row for the overlay examples: 50 blanks and a vertical border. -/
def c3row : List Char := List.replicate 50 ' ' ++ ['|']

/-- A three-row box grid for the overlay examples. -/
def c3grid : List (List Char) := [c3row, c3row, c3row]

/-- Witness for C3 on a concrete three-row grid and the label `ab`. -/
theorem vertical_label_roundtrip_witness :
    readBack (overlayBlock cfgDefault 0 2 "ab".toList c3grid)
      (middleStart 0 2 "ab".toList.length) "ab".toList.length
      = "ab".toList :=
  vertical_label_roundtrip cfgDefault 0 2 "ab".toList c3grid rfl rfl rfl
    (by decide) (by decide)

/-- Counterexample to C3 as stated: a y-axis label that itself contains
an underscore (`a_b`) is read back as `a b` — the separator conversion
is not injective, so the round trip fails. -/
theorem vertical_label_counterexample :
    readBack (overlayBlock cfgDefault (graphBounds c3grid).1
        (graphBounds c3grid).2 "a_b".toList c3grid)
      (middleStart (graphBounds c3grid).1 (graphBounds c3grid).2
        "a_b".toList.length)
      "a_b".toList.length = "a b".toList
    ∧ ("a b".toList : List Char) ≠ "a_b".toList := by
  refine ⟨by decide, by decide⟩

/-! ## Loader, renderer and orchestrator (C7, C8) -/

/-- Outcome of `_load_json_data`: a validated record, or a user-visible
error message together with the process exit status (`sys.exit(1)`). -/
inductive LoadResult where
  | ok (d : MeasurementRecord)
  | fatal (msg : List Char) (code : Nat)
deriving DecidableEq, Repr

/-- `_load_json_data` on an already-parsed document (source lines
143-161): a missing top-level `intervals` key raises `ValueError`, which
is caught, printed, and turned into `sys.exit(1)`. -/
def load_json_data (raw : RawRecord) : LoadResult :=
  match raw.intervals with
  | some ivs => .ok ⟨ivs⟩
  | none =>
    .fatal ("Error: Invalid iperf3 JSON: missing 'intervals' section".toList)
      1

/-- Outcome of the gnuplot subprocess for one metric: captured stdout,
`CalledProcessError` (non-zero exit), or `FileNotFoundError`. -/
inductive EngineResult where
  | ok (stdout : List Char)
  | nonzeroExit
  | notFound
deriving Repr

/-- The two failure modes `_execute_gnuplot` turns into `False`. -/
def EngineResult.failsB : EngineResult → Bool
  | .ok _ => false
  | .nonzeroExit => true
  | .notFound => true

/-- One dataset row of `generate_ascii_graphs` (source lines 511-527). -/
structure DataSet where
  name : List Char
  xs : List Rat
  ys : List Rat
  title : List Char
  xlabel : List Char
  ylabel : List Char
deriving DecidableEq, Repr

/-- The `all_datasets` table with its per-metric enable flags
(source lines 511-524). -/
def all_datasets (cfg : Config) (d : MeasurementRecord) :
    List (DataSet × Bool) :=
  let m := extract_performance_metrics d
  [(⟨"senderBytes".toList, m.sender_times, m.sender_bytes,
      "Network Throughput: Sender Bytes Over Time".toList,
      "Time (seconds)".toList, "Bytes Transmitted".toList⟩,
    cfg.track_sender_bytes),
   (⟨"receiverBytes".toList, m.receiver_times, m.receiver_bytes,
      "Network Throughput: Receiver Bytes Over Time".toList,
      "Time (seconds)".toList, "Bytes Received".toList⟩,
    cfg.track_receiver_bytes),
   (⟨"packetLoss".toList, m.receiver_times, m.packet_loss,
      "Network Quality: Packet Loss Percentage Over Time".toList,
      "Time (seconds)".toList, "Packet Loss (%)".toList⟩,
    cfg.track_packet_loss),
   (⟨"jitter".toList, m.receiver_times, m.jitter,
      "Network Quality: Jitter Measurements Over Time".toList,
      "Time (seconds)".toList, "Jitter (ms)".toList⟩,
    cfg.track_jitter)]

/-- The filtered dataset list (source line 527). -/
def datasets (cfg : Config) (d : MeasurementRecord) : List DataSet :=
  ((all_datasets cfg d).filter (fun p => p.2)).map (fun p => p.1)

/-- Observable effects of one `generate_ascii_graphs` run: files written,
warnings printed, metrics whose render failed, metrics attempted, and the
success tally. -/
structure GenResult where
  artifacts : List (List Char)
  warnings : List (List Char)
  failed : List (List Char)
  processed : List (List Char)
  successful : Nat
deriving DecidableEq, Repr

def emptyGenResult : GenResult := ⟨[], [], [], [], 0⟩

def noDataMsg (name : List Char) : List Char :=
  "Warning: No data available for ".toList ++ name

/-- One loop iteration of `generate_ascii_graphs` (source lines 531-557),
with `_write_data_file`, script generation and `_execute_gnuplot` (source
lines 271-313) folded in.  The `.dat` and `.plt` files are written before
the subprocess runs, the `.txt` file only after a successful render plus
post-processing; `none` models an uncaught exception. -/
def processDataset (cfg : Config) (stem : List Char)
    (engine : List Char → EngineResult) (acc : GenResult) (ds : DataSet) :
    Option GenResult :=
  if ds.xs = [] ∨ ds.ys = [] then
    some { acc with
      warnings := acc.warnings
        ++ (if cfg.verbose_output then [noDataMsg ds.name] else []) }
  else
    let dataFile := ds.name ++ "_".toList ++ stem ++ ".dat".toList
    let scriptFile := ds.name ++ "_".toList ++ stem ++ ".plt".toList
    let outFile := ds.name ++ "_".toList ++ stem ++ ".txt".toList
    let acc1 := { acc with
      artifacts := acc.artifacts ++ [dataFile, scriptFile]
      processed := acc.processed ++ [ds.name] }
    match engine ds.name with
    | .ok raw =>
      match post_process_ascii_output cfg raw ds.ylabel ds.xlabel with
      | some _ =>
        some { acc1 with
          artifacts := acc1.artifacts ++ [outFile]
          successful := acc1.successful + 1 }
      | none => none
    | .nonzeroExit => some { acc1 with failed := acc1.failed ++ [ds.name] }
    | .notFound => some { acc1 with failed := acc1.failed ++ [ds.name] }

/-- The `for metric_name, ... in datasets:` loop. -/
def runDatasets (cfg : Config) (stem : List Char)
    (engine : List Char → EngineResult) :
    GenResult → List DataSet → Option GenResult
  | acc, [] => some acc
  | acc, ds :: rest =>
    match processDataset cfg stem engine acc ds with
    | some acc2 => runDatasets cfg stem engine acc2 rest
    | none => none

/-- `generate_ascii_graphs` (source lines 497-561). -/
def generate_ascii_graphs (cfg : Config) (stem : List Char)
    (engine : List Char → EngineResult) (d : MeasurementRecord) :
    Option GenResult :=
  runDatasets cfg stem engine emptyGenResult (datasets cfg d)

/-- `main` (source lines 564-596): the exit code (`0` on a completed run,
the fatal code from the loader, `1` on an uncaught exception) and the
run's observable effects. -/
def run_main (cfg : Config) (stem : List Char)
    (engine : List Char → EngineResult) (raw : RawRecord) :
    Nat × GenResult :=
  match load_json_data raw with
  | .fatal _ c => (c, emptyGenResult)
  | .ok d =>
    match generate_ascii_graphs cfg stem engine d with
    | some g => (0, g)
    | none => (1, emptyGenResult)

/-- The skip condition of the orchestrator loop, as a Boolean. -/
def emptyDataB (ds : DataSet) : Bool := decide (ds.xs = [] ∨ ds.ys = [])

/-- Names of the enabled metrics with a non-empty series. -/
def enabledNonemptyNames (cfg : Config) (d : MeasurementRecord) :
    List (List Char) :=
  ((datasets cfg d).filter (fun ds => !(emptyDataB ds))).map
    (fun ds => ds.name)

/-- The artifact files one dataset contributes. -/
def artifactsOf (stem : List Char) (engine : List Char → EngineResult)
    (ds : DataSet) : List (List Char) :=
  if ds.xs = [] ∨ ds.ys = [] then []
  else
    [ds.name ++ "_".toList ++ stem ++ ".dat".toList,
     ds.name ++ "_".toList ++ stem ++ ".plt".toList]
    ++ (match engine ds.name with
        | .ok _ => [ds.name ++ "_".toList ++ stem ++ ".txt".toList]
        | _ => [])

/-- Characterization of the dataset loop: it never raises, processes
every non-empty dataset, records every engine failure, warns (verbosely)
on every empty dataset, and writes exactly the per-dataset artifacts. -/
lemma runDatasets_spec (cfg : Config) (stem : List Char)
    (engine : List Char → EngineResult) :
    ∀ (dss : List DataSet) (acc : GenResult),
      ∃ g, runDatasets cfg stem engine acc dss = some g
        ∧ g.processed = acc.processed
            ++ ((dss.filter (fun ds => !(emptyDataB ds))).map
                (fun ds => ds.name))
        ∧ g.failed = acc.failed
            ++ (((dss.filter (fun ds => !(emptyDataB ds))).filter
                  (fun ds => EngineResult.failsB (engine ds.name))).map
                (fun ds => ds.name))
        ∧ g.warnings = acc.warnings
            ++ ((dss.filter emptyDataB).flatMap
                (fun ds =>
                  if cfg.verbose_output then [noDataMsg ds.name] else []))
        ∧ g.artifacts = acc.artifacts
            ++ dss.flatMap (artifactsOf stem engine) := by
  intro dss
  induction dss with
  | nil => intro acc; exact ⟨acc, rfl, by simp, by simp, by simp, by simp⟩
  | cons ds rest ih =>
    intro acc
    by_cases hempty : ds.xs = [] ∨ ds.ys = []
    · have hemptyB : emptyDataB ds = true := by
        unfold emptyDataB
        exact decide_eq_true hempty
      have hstep : processDataset cfg stem engine acc ds
          = some { acc with
              warnings := acc.warnings
                ++ (if cfg.verbose_output then [noDataMsg ds.name]
                    else []) } := by
        unfold processDataset
        rw [if_pos hempty]
      obtain ⟨g, hg, h1, h2, h3, h4⟩ := ih { acc with
        warnings := acc.warnings
          ++ (if cfg.verbose_output then [noDataMsg ds.name] else []) }
      refine ⟨g, ?_, ?_, ?_, ?_, ?_⟩
      · show (match processDataset cfg stem engine acc ds with
          | some acc2 => runDatasets cfg stem engine acc2 rest
          | none => none) = some g
        rw [hstep]
        exact hg
      · rw [h1]
        simp [List.filter_cons, hemptyB]
      · rw [h2]
        simp [List.filter_cons, hemptyB]
      · rw [h3]
        simp [List.filter_cons, List.flatMap_cons, hemptyB,
          List.append_assoc]
      · rw [h4]
        simp [List.flatMap_cons, artifactsOf, hempty, List.append_assoc]
    · have hemptyB : emptyDataB ds = false := by
        unfold emptyDataB
        simpa using hempty
      rcases heng : engine ds.name with raw | _ | _
      · obtain ⟨out, hout⟩ := post_process_output_isSome cfg raw ds.ylabel ds.xlabel
        have hstep : processDataset cfg stem engine acc ds
            = some { acc with
                artifacts := (acc.artifacts
                  ++ [ds.name ++ "_".toList ++ stem ++ ".dat".toList,
                      ds.name ++ "_".toList ++ stem ++ ".plt".toList])
                  ++ [ds.name ++ "_".toList ++ stem ++ ".txt".toList]
                processed := acc.processed ++ [ds.name]
                successful := acc.successful + 1 } := by
          unfold processDataset
          rw [if_neg hempty]
          show (match engine ds.name with
            | EngineResult.ok raw =>
              (match post_process_ascii_output cfg raw ds.ylabel
                  ds.xlabel with
                | some _ => some _
                | none => none)
            | EngineResult.nonzeroExit => some _
            | EngineResult.notFound => some _) = _
          rw [heng]
          simp only [hout]
        obtain ⟨g, hg, h1, h2, h3, h4⟩ := ih _
        refine ⟨g, ?_, ?_, ?_, ?_, ?_⟩
        · show (match processDataset cfg stem engine acc ds with
            | some acc2 => runDatasets cfg stem engine acc2 rest
            | none => none) = some g
          rw [hstep]
          exact hg
        · rw [h1]
          simp [List.filter_cons, hemptyB]
        · rw [h2]
          simp [List.filter_cons, hemptyB, heng, EngineResult.failsB]
        · rw [h3]
          simp [List.filter_cons, hemptyB]
        · rw [h4]
          simp [List.flatMap_cons, artifactsOf, hempty, heng,
            List.append_assoc]
      · have hstep : processDataset cfg stem engine acc ds
            = some { acc with
                artifacts := acc.artifacts
                  ++ [ds.name ++ "_".toList ++ stem ++ ".dat".toList,
                      ds.name ++ "_".toList ++ stem ++ ".plt".toList]
                processed := acc.processed ++ [ds.name]
                failed := acc.failed ++ [ds.name] } := by
          unfold processDataset
          rw [if_neg hempty]
          show (match engine ds.name with
            | EngineResult.ok raw =>
              (match post_process_ascii_output cfg raw ds.ylabel
                  ds.xlabel with
                | some _ => some _
                | none => none)
            | EngineResult.nonzeroExit => some _
            | EngineResult.notFound => some _) = _
          rw [heng]
        obtain ⟨g, hg, h1, h2, h3, h4⟩ := ih _
        refine ⟨g, ?_, ?_, ?_, ?_, ?_⟩
        · show (match processDataset cfg stem engine acc ds with
            | some acc2 => runDatasets cfg stem engine acc2 rest
            | none => none) = some g
          rw [hstep]
          exact hg
        · rw [h1]
          simp [List.filter_cons, hemptyB]
        · rw [h2]
          simp [List.filter_cons, hemptyB, heng, EngineResult.failsB,
            List.append_assoc]
        · rw [h3]
          simp [List.filter_cons, hemptyB]
        · rw [h4]
          simp [List.flatMap_cons, artifactsOf, hempty, heng,
            List.append_assoc]
      · have hstep : processDataset cfg stem engine acc ds
            = some { acc with
                artifacts := acc.artifacts
                  ++ [ds.name ++ "_".toList ++ stem ++ ".dat".toList,
                      ds.name ++ "_".toList ++ stem ++ ".plt".toList]
                processed := acc.processed ++ [ds.name]
                failed := acc.failed ++ [ds.name] } := by
          unfold processDataset
          rw [if_neg hempty]
          show (match engine ds.name with
            | EngineResult.ok raw =>
              (match post_process_ascii_output cfg raw ds.ylabel
                  ds.xlabel with
                | some _ => some _
                | none => none)
            | EngineResult.nonzeroExit => some _
            | EngineResult.notFound => some _) = _
          rw [heng]
        obtain ⟨g, hg, h1, h2, h3, h4⟩ := ih _
        refine ⟨g, ?_, ?_, ?_, ?_, ?_⟩
        · show (match processDataset cfg stem engine acc ds with
            | some acc2 => runDatasets cfg stem engine acc2 rest
            | none => none) = some g
          rw [hstep]
          exact hg
        · rw [h1]
          simp [List.filter_cons, hemptyB]
        · rw [h2]
          simp [List.filter_cons, hemptyB, heng, EngineResult.failsB,
            List.append_assoc]
        · rw [h3]
          simp [List.filter_cons, hemptyB]
        · rw [h4]
          simp [List.flatMap_cons, artifactsOf, hempty, heng,
            List.append_assoc]

lemma flatMap_nil_of {α β : Type} (l : List α) (f : α → List β)
    (h : ∀ x ∈ l, f x = []) : l.flatMap f = [] := by
  induction l with
  | nil => rfl
  | cons x xs ih =>
    rw [List.flatMap_cons, h x (List.mem_cons_self x xs),
      ih (fun y hy => h y (List.mem_cons_of_mem x hy)), List.nil_append]

lemma flatMap_singleton_eq_map {α β : Type} (l : List α) (g : α → β) :
    l.flatMap (fun x => [g x]) = l.map g := by
  induction l with
  | nil => rfl
  | cons x xs ih => rw [List.flatMap_cons, ih]; rfl

/-- **C7.** A record lacking the top-level `intervals` key makes the
process emit a user-visible (non-empty) error and exit with status 1.  A
record with `intervals = []` yields zero-length series for every metric,
one no-data warning per enabled metric (under the default verbose
output), and zero artifacts written. -/
theorem missing_or_empty_intervals (cfg : Config) (stem : List Char)
    (engine : List Char → EngineResult)
    (hv : cfg.verbose_output = true) :
    (∀ raw : RawRecord, raw.intervals = none →
      load_json_data raw
        = .fatal
          ("Error: Invalid iperf3 JSON: missing 'intervals' section".toList)
          1
      ∧ ("Error: Invalid iperf3 JSON: missing 'intervals' section".toList
          : List Char) ≠ []
      ∧ (run_main cfg stem engine raw).1 = 1)
    ∧ (∀ raw : RawRecord, raw.intervals = some [] →
      load_json_data raw = .ok ⟨[]⟩
      ∧ extract_performance_metrics ⟨[]⟩ = ⟨[], [], [], [], [], []⟩
      ∧ ∃ g, generate_ascii_graphs cfg stem engine ⟨[]⟩ = some g
          ∧ g.artifacts = []
          ∧ g.warnings
              = (datasets cfg ⟨[]⟩).map (fun ds => noDataMsg ds.name)) := by
  constructor
  · intro raw hr
    rcases raw with ⟨iv⟩
    simp only at hr
    subst hr
    exact ⟨rfl, by decide, rfl⟩
  · intro raw hr
    rcases raw with ⟨iv⟩
    simp only at hr
    subst hr
    refine ⟨rfl, rfl, ?_⟩
    have hall : ∀ ds ∈ datasets cfg ⟨[]⟩, emptyDataB ds = true := by
      intro ds hds
      unfold datasets all_datasets at hds
      simp only [List.mem_map, List.mem_filter] at hds
      obtain ⟨p, ⟨hp, _⟩, rfl⟩ := hds
      simp only [List.mem_cons, List.mem_singleton] at hp
      rcases hp with rfl | rfl | rfl | rfl | hfalse
      · rfl
      · rfl
      · rfl
      · rfl
      · exact absurd hfalse (List.not_mem_nil p)
    obtain ⟨g, hg, h1, h2, h3, h4⟩ := runDatasets_spec cfg stem engine
      (datasets cfg ⟨[]⟩) emptyGenResult
    refine ⟨g, hg, ?_, ?_⟩
    · rw [h4]
      show [] ++ _ = ([] : List (List Char))
      rw [List.nil_append]
      apply flatMap_nil_of
      intro ds hds
      unfold artifactsOf
      rw [if_pos (of_decide_eq_true (hall ds hds))]
    · rw [h3]
      show [] ++ _ = _
      rw [List.nil_append, List.filter_eq_self.mpr hall]
      have hfun : (fun ds : DataSet =>
          if cfg.verbose_output then [noDataMsg ds.name] else [])
          = fun ds : DataSet => [noDataMsg ds.name] := by
        funext ds
        rw [hv]
        rfl
      rw [hfun, flatMap_singleton_eq_map]

/-- Witness for C7 at the default configuration, a concrete engine, and
the two concrete records (`intervals` absent, `intervals = []`). -/
theorem missing_or_empty_intervals_witness :
    load_json_data ⟨none⟩
      = .fatal
        ("Error: Invalid iperf3 JSON: missing 'intervals' section".toList) 1
    ∧ (run_main cfgDefault "data".toList
        (fun _ => EngineResult.notFound) ⟨none⟩).1 = 1
    ∧ ∃ g, generate_ascii_graphs cfgDefault "data".toList
          (fun _ => EngineResult.notFound) ⟨[]⟩ = some g
        ∧ g.artifacts = []
        ∧ g.warnings
            = (datasets cfgDefault ⟨[]⟩).map (fun ds => noDataMsg ds.name)
    := by
  have h := missing_or_empty_intervals cfgDefault "data".toList
    (fun _ => EngineResult.notFound) rfl
  have h1 := h.1 ⟨none⟩ rfl
  have h2 := h.2 ⟨some []⟩ rfl
  exact ⟨h1.1, h1.2.2, h2.2.2⟩

/-- **C8.** If rendering one metric fails (gnuplot missing or exiting
non-zero), the orchestrator records that metric's failure, still
processes every enabled metric with data, and the process exits with
code 0. -/
theorem metric_failure_isolated (cfg : Config) (stem : List Char)
    (engine : List Char → EngineResult) (d : MeasurementRecord)
    (m : List Char) (hm : m ∈ enabledNonemptyNames cfg d)
    (hf : EngineResult.failsB (engine m) = true) :
    ∃ g, generate_ascii_graphs cfg stem engine d = some g
      ∧ m ∈ g.failed
      ∧ g.processed = enabledNonemptyNames cfg d
      ∧ ∀ raw : RawRecord, load_json_data raw = .ok d →
          run_main cfg stem engine raw = (0, g) := by
  obtain ⟨g, hg, h1, h2, h3, h4⟩ := runDatasets_spec cfg stem engine
    (datasets cfg d) emptyGenResult
  refine ⟨g, hg, ?_, ?_, ?_⟩
  · rw [h2]
    show m ∈ [] ++ _
    rw [List.nil_append]
    unfold enabledNonemptyNames at hm
    obtain ⟨ds, hds, rfl⟩ := List.mem_map.mp hm
    exact List.mem_map.mpr ⟨ds, List.mem_filter.mpr
      ⟨hds, hf⟩, rfl⟩
  · rw [h1]
    unfold enabledNonemptyNames
    show [] ++ _ = _
    rw [List.nil_append]
  · intro raw hload
    rcases raw with ⟨iv⟩
    cases iv with
    | none => exact absurd hload (by simp [load_json_data])
    | some l =>
      have hd : MeasurementRecord.mk l = d := by
        have h5 : LoadResult.ok ⟨l⟩ = LoadResult.ok d := hload
        injection h5
      show (match generate_ascii_graphs cfg stem engine ⟨l⟩ with
        | some g2 => ((0 : Nat), g2)
        | none => (1, emptyGenResult)) = (0, g)
      rw [hd]
      have hgen : generate_ascii_graphs cfg stem engine d = some g := hg
      rw [hgen]

/-- Witness for C8: one sender-only record, an engine that always exits
non-zero, and the `senderBytes` metric. -/
theorem metric_failure_isolated_witness :
    ∃ g, generate_ascii_graphs cfgDefault "data".toList
        (fun _ => EngineResult.nonzeroExit)
        ⟨[⟨[⟨some true, 1, 1000, none, none⟩]⟩]⟩ = some g
      ∧ "senderBytes".toList ∈ g.failed
      ∧ g.processed = enabledNonemptyNames cfgDefault
          ⟨[⟨[⟨some true, 1, 1000, none, none⟩]⟩]⟩
      ∧ ∀ raw : RawRecord,
          load_json_data raw
            = .ok ⟨[⟨[⟨some true, 1, 1000, none, none⟩]⟩]⟩ →
          run_main cfgDefault "data".toList
            (fun _ => EngineResult.nonzeroExit) raw = (0, g) :=
  metric_failure_isolated cfgDefault "data".toList
    (fun _ => EngineResult.nonzeroExit)
    ⟨[⟨[⟨some true, 1, 1000, none, none⟩]⟩]⟩ "senderBytes".toList
    (by decide) rfl

end Iperf
